/-
  Spec2Proof.lean — a verification development for the fantasy-bot
  Roster Allocation Engine.

  Shallow embedding of the core modules:
    * optimizer.py       — build_lineup, check_bench_shape and helpers
    * il_manager.py      — check_il_flags, recommend_drop_for_activation
    * waiver_scanner.py  — scan_active_upgrades, scan_bench_upgrades

  Modelling conventions:
    * Python dicts with optional keys become structures with `Option` fields;
      `d.get(k, default)` becomes `field.getD default`.
    * Python floats/ints in ranking arithmetic are modelled as exact
      rationals (ℚ); `round(x, 2)` is modelled as exact round-half-even on ℚ
      (Python's rounding mode), scaled by 100.
    * `list.sort(key=...)` (Timsort, stable, ascending) is modelled by a
      stable insertion sort parameterised by a strict-less Boolean test.
    * `max(xs, key=...)` is modelled by a left fold that keeps the first
      maximal element, as Python's `max` does.
    * Human-readable `action` / `reason` strings built by il_manager are
      presentational only (they require float formatting) and are not
      modelled; all decision-relevant fields are.
-/

import Mathlib

/-
Batteries marks the `Rat` field operations `@[irreducible]` so that `simp`
and `decide` do not unfold them by accident.  This development evaluates the
embedded engine on closed concrete rosters inside `decide` proofs, which
needs those operations to reduce; restore their default reducibility locally.
-/
set_option allowUnsafeReducibility true
attribute [local semireducible] Rat.add Rat.sub Rat.mul Rat.div Rat.neg Rat.inv

namespace FantasyBot

/-! ## Generic list machinery: stable sort and Python-style max -/

/-- Stable insertion of `a` into `l`: `a` goes before the first element it is
strictly less than, hence after all earlier elements with an equal key.  This
mirrors the stability guarantee of Python's `list.sort`. -/
def insertByLt {α : Type} (lt : α → α → Bool) (a : α) : List α → List α
  | [] => [a]
  | b :: l => if lt a b then a :: b :: l else b :: insertByLt lt a l

/-- Stable ascending sort by a strict-less Boolean test (models Python's
`list.sort` / `sorted`). -/
def sortByLt {α : Type} (lt : α → α → Bool) (l : List α) : List α :=
  l.foldl (fun acc x => insertByLt lt x acc) []

/-- Ascending stable sort by a rational-valued key (`xs.sort(key=...)`). -/
def sortByKey {α : Type} (key : α → ℚ) (l : List α) : List α :=
  sortByLt (fun a b => decide (key a < key b)) l

/-- Python's `max(xs, key=...)`: first element attaining the maximal key
(replacement only on a strictly greater key). -/
def pyMaxBy {α : Type} (key : α → ℚ) (l : List α) : Option α :=
  l.foldl
    (fun best a =>
      match best with
      | none => some a
      | some b => if key a > key b then some a else some b)
    none

/-- Exact round-half-even on ℚ (the rounding Python's `round` uses). -/
def roundHalfEven (q : ℚ) : ℤ :=
  if q - ⌊q⌋ < 1 / 2 then ⌊q⌋
  else if 1 / 2 < q - ⌊q⌋ then ⌊q⌋ + 1
  else if ⌊q⌋ % 2 = 0 then ⌊q⌋ else ⌊q⌋ + 1

/-- Python's `round(q, 2)` modelled exactly on ℚ. -/
def pyRound2 (q : ℚ) : ℚ := (roundHalfEven (q * 100) : ℚ) / 100

/-- Python truthiness filter for an optional number: `None` and `0` are
falsy (used to model `a or b or 0` chains). -/
def truthyQ : Option ℚ → Option ℚ
  | some v => if v = 0 then none else some v
  | none => none

/-! ## optimizer.py — data model -/

/-- A roster player dict as consumed by `build_lineup`
(`YahooFantasyClient.get_my_roster()` shape).  Keys read with `.get` and a
default become `Option` fields; `has_game_today` defaults to `False` and
`is_untouchable` is (re)derived inside `build_lineup`. -/
structure Player where
  name : String
  positions : List String := []
  status : Option String := none
  current_slot : Option String := none
  yahoo_30day_rank : Option ℚ := none
  yahoo_14day_rank : Option ℚ := none
  ht_score : Option ℚ := none
  ht_rank_30d : Option ℚ := none
  ht_rank_14d : Option ℚ := none
  has_game_today : Bool := false
  is_untouchable : Bool := false
  deriving DecidableEq, Repr

/-- `BENCH_SLOTS = ["BN", "BN", "BN"]`. -/
def BENCH_SLOTS : List String := ["BN", "BN", "BN"]

/-- `SWAP_PRIORITY`: displacement tiers, most expendable first.  Pairs of
(slot name, slot type) distinguishing the flex C from the stable C. -/
def SWAP_PRIORITY : List (String × String) :=
  [("UTIL", "flex"),
   ("G", "flex"), ("F", "flex"), ("C", "flex"),
   ("PG", "stable"), ("SG", "stable"), ("SF", "stable"), ("PF", "stable"), ("C", "stable")]

/-- `SLOT_ELIGIBILITY.get(slot, [])`: which player positions may fill each
slot (the same table appears verbatim in optimizer.py and waiver_scanner.py). -/
def SLOT_ELIGIBILITY (slot : String) : List String :=
  if slot = "PG" then ["PG"]
  else if slot = "SG" then ["SG"]
  else if slot = "G" then ["PG", "SG"]
  else if slot = "SF" then ["SF"]
  else if slot = "PF" then ["PF"]
  else if slot = "F" then ["SF", "PF"]
  else if slot = "C" then ["C"]
  else if slot = "UTIL" then ["PG", "SG", "SF", "PF", "C", "G", "F"]
  else if slot = "BN" then ["PG", "SG", "SF", "PF", "C", "G", "F"]
  else []

/-- `TARGET_BENCH_SHAPE = {"G": 1, "F": 1, "C": 1}` as an association list. -/
def TARGET_BENCH_SHAPE : List (String × Nat) := [("G", 1), ("F", 1), ("C", 1)]

/-- `STABLE_LOW_RANK_THRESHOLD = 60`. -/
def STABLE_LOW_RANK_THRESHOLD : ℚ := 60

/-- `STABLE_FILL_ORDER`. -/
def STABLE_FILL_ORDER : List (String × Nat) :=
  [("C", 1), ("PG", 1), ("SG", 1), ("SF", 1), ("PF", 1)]

/-- `FLEX_FILL_ORDER`. -/
def FLEX_FILL_ORDER : List (String × Nat) :=
  [("C", 1), ("G", 1), ("F", 1), ("UTIL", 2)]

/-- `_player_eligible_for_slot`: the player's `positions` meet the slot's
accepted list. -/
def playerEligibleForSlot (p : Player) (slot : String) : Bool :=
  p.positions.any fun pos => (SLOT_ELIGIBILITY slot).contains pos

/-- `_rank_sort_key(player, untouchables, use_14day=...)` — lower is better.
Both branches of the source return a 1-tuple, so the key is a single ℚ. -/
def rankSortKey (p : Player) (unt : List String) (use14 : Bool) : ℚ :=
  let isUnt := unt.contains p.name
  match p.ht_score with
  | some ht => -(ht + (if isUnt then 10000 else 0))
  | none =>
      let rank :=
        if use14 then p.ht_rank_14d.getD (p.yahoo_14day_rank.getD 999)
        else p.ht_rank_30d.getD (p.yahoo_30day_rank.getD 999)
      rank + (if isUnt then -10000 else 0)

/-- `_best_player_for_slot`: filter eligibles, sort ascending by
`_rank_sort_key`, take the head (the source returns `None` on an empty
eligible list, equivalently `head?`). -/
def bestPlayerForSlot (slot : String) (candidates : List Player)
    (unt : List String) (use14 : Bool) : Option Player :=
  (sortByKey (fun p => rankSortKey p unt use14)
    (candidates.filter fun p => playerEligibleForSlot p slot)).head?

/-- An entry of `assigned_active` (the dict literal built in `_fill_slots`
and in the swap pass).  Note these dicts carry `rank_30day` / `rank_14day`
keys, not the `yahoo_*_rank` / `ht_rank_*` keys of roster players. -/
structure Entry where
  name : String
  slot : String
  rank_30day : ℚ
  rank_14day : ℚ
  has_game_today : Bool
  injury_status : String
  is_untouchable : Bool
  flag_low_rank : Bool
  flag_injured : Bool
  positions : List String
  slot_type : String
  ht_score : Option ℚ := none
  deriving DecidableEq, Repr

/-- Placeholder entry for total indexing (indices used below always come
from `List.enum` and are in range). -/
def dfltEntry : Entry :=
  { name := "", slot := "", rank_30day := 999, rank_14day := 999,
    has_game_today := false, injury_status := "", is_untouchable := false,
    flag_low_rank := false, flag_injured := false, positions := [],
    slot_type := "" }

/-- `_rank_sort_key` applied to an *active entry* dict (as the swap pass
does).  Active entries have no `ht_rank_30d`/`ht_rank_14d`/`yahoo_*_rank`
keys, so when `ht_score` is absent the fallback lookup
`player.get("ht_rank_30d", player.get("yahoo_30day_rank", 999))` always
yields the literal default 999. -/
def rankSortKeyEntry (e : Entry) (unt : List String) : ℚ :=
  let isUnt := unt.contains e.name
  match e.ht_score with
  | some ht => -(ht + (if isUnt then 10000 else 0))
  | none => 999 + (if isUnt then -10000 else 0)

/-- The entry dict built by `_fill_slots` for a chosen player. -/
def mkFillEntry (unt : List String) (p : Player) (slot : String)
    (isStable : Bool) : Entry :=
  let rank30 := p.yahoo_30day_rank.getD 999
  let rank14 := p.yahoo_14day_rank.getD 999
  let status := p.status.getD "healthy"
  { name := p.name
    slot := slot
    rank_30day := rank30
    rank_14day := rank14
    has_game_today := p.has_game_today
    injury_status := status
    is_untouchable := unt.contains p.name
    flag_low_rank := if isStable then decide (rank30 > STABLE_LOW_RANK_THRESHOLD) else false
    flag_injured := (["INJ", "O", "Q", "DTD"].contains status)
      && !(["IL", "IL+"].contains slot)
    positions := p.positions
    slot_type := if isStable then "stable" else "flex"
    ht_score := p.ht_score }

/-- Mutable working state of `build_lineup`: the active assignments so far
and the pool of unassigned players. -/
structure AllocState where
  active : List Entry
  unassigned : List Player
  deriving Repr

/-- One iteration of the fill loop body for a single slot: pick the best
eligible unassigned player, append its entry, remove it from the pool
(`unassigned.remove(chosen)` removes the first equal element, i.e.
`List.erase`).  If no candidate is eligible the slot is skipped. -/
def fillOne (unt : List String) (use14 isStable : Bool)
    (st : AllocState) (slot : String) : AllocState :=
  match bestPlayerForSlot slot st.unassigned unt use14 with
  | none => st
  | some chosen =>
      { active := st.active ++ [mkFillEntry unt chosen slot isStable]
        unassigned := st.unassigned.erase chosen }

/-- Flatten a fill order (`for slot, count in order: for _ in range(count)`)
into the sequence of slots actually filled. -/
def slotsOfOrder (order : List (String × Nat)) : List String :=
  order.foldr (fun sc acc => List.replicate sc.2 sc.1 ++ acc) []

/-- `_fill_slots(fill_order, use_14day, is_stable)`. -/
def runFill (order : List (String × Nat)) (use14 isStable : Bool)
    (unt : List String) (st : AllocState) : AllocState :=
  (slotsOfOrder order).foldl (fillOne unt use14 isStable) st

/-- `HARD_OUT = {"INJ", "O", "NA"}`. -/
def HARD_OUT : List String := ["INJ", "O", "NA"]

/-- `p.get("status") in HARD_OUT` — a missing status is `None`, which is not
in the set. -/
def statusHardOut (p : Player) : Bool :=
  match p.status with
  | some s => HARD_OUT.contains s
  | none => false

/-- `bench_with_game`: unassigned players with a game today and a playable
status, sorted best-first by the default (30-day) selection key. -/
def benchWithGame (unassigned : List Player) (unt : List String) : List Player :=
  sortByKey (fun p => rankSortKey p unt false)
    (unassigned.filter fun p => p.has_game_today && !statusHardOut p)

/-- The indices of active entries in swap tier `t` that qualify as
displacement candidates for `bp`: matching slot name and slot type, no game
today, and `bp` eligible for the tier's slot. -/
def tierCandidates (active : List Entry) (bp : Player)
    (t : String × String) : List Nat :=
  (active.enum.filter fun ie =>
    ie.2.slot = t.1 && ie.2.slot_type = t.2 && !ie.2.has_game_today
      && playerEligibleForSlot bp t.1).map Prod.fst

/-- The tier scan of the swap pass: first tier (in `SWAP_PRIORITY` order)
with a non-empty candidate list wins; within it, Python's `max` picks the
worst-ranked occupant (first index attaining the maximal entry key). -/
def findSwapGo (active : List Entry) (bp : Player) (unt : List String) :
    List (String × String) → Option Nat
  | [] => none
  | t :: rest =>
      let c := tierCandidates active bp t
      if c.isEmpty then findSwapGo active bp unt rest
      else pyMaxBy (fun i => rankSortKeyEntry (active.getD i dfltEntry) unt) c

/-- `best_swap_idx` for one bench player. -/
def findSwapTarget (active : List Entry) (bp : Player) (unt : List String) :
    Option Nat :=
  findSwapGo active bp unt SWAP_PRIORITY

/-- What it means for index `i` to be the swap pass's correct choice for
bench player `bp`: `i` is a candidate of the first `SWAP_PRIORITY` tier with
any candidates at all, and its occupant is worst-ranked there — every other
candidate of that tier has an entry key at most `i`'s — under
`_rank_sort_key` applied to the active entries (the call uses the default
30-day window; on entry dicts both windows reduce to the same key, see
`rankSortKeyEntry`). -/
def SwapChoiceSpec (active : List Entry) (bp : Player) (unt : List String)
    (i : Nat) : Prop :=
  ∃ k, k < SWAP_PRIORITY.length ∧
    (∀ m, m < k → tierCandidates active bp (SWAP_PRIORITY.getD m ("", "")) = []) ∧
    i ∈ tierCandidates active bp (SWAP_PRIORITY.getD k ("", "")) ∧
    ∀ j ∈ tierCandidates active bp (SWAP_PRIORITY.getD k ("", "")),
      rankSortKeyEntry (active.getD j dfltEntry) unt ≤
        rankSortKeyEntry (active.getD i dfltEntry) unt

/-- The `new_entry` dict built when `bench_player` takes over the displaced
player's slot. -/
def mkSwapEntry (unt : List String) (bp : Player) (displaced : Entry) : Entry :=
  let rank30 := bp.yahoo_30day_rank.getD 999
  let rank14 := bp.yahoo_14day_rank.getD 999
  let status := bp.status.getD "healthy"
  let isStable := displaced.slot_type = "stable"
  { name := bp.name
    slot := displaced.slot
    rank_30day := rank30
    rank_14day := rank14
    has_game_today := true
    injury_status := status
    is_untouchable := unt.contains bp.name
    flag_low_rank := if isStable then decide (rank30 > STABLE_LOW_RANK_THRESHOLD) else false
    flag_injured := ["INJ", "O", "Q", "DTD"].contains status
    positions := bp.positions
    slot_type := displaced.slot_type
    ht_score := bp.ht_score }

/-- The roster-player dict reconstructed from a displaced active entry and
appended back to the unassigned pool.  The reconstruction keeps only the
entry's fields: the `ht_rank_*` keys are lost and `yahoo_*_rank` are rebuilt
from the entry's (already defaulted) ranks. -/
def reconstructPlayer (e : Entry) : Player :=
  { name := e.name
    positions := e.positions
    status := some e.injury_status
    current_slot := none
    yahoo_30day_rank := some e.rank_30day
    yahoo_14day_rank := some e.rank_14day
    ht_score := e.ht_score
    ht_rank_30d := none
    ht_rank_14d := none
    has_game_today := e.has_game_today
    is_untouchable := e.is_untouchable }

/-- One iteration of the game-day swap loop for a single bench player. -/
def swapStep (unt : List String) (st : AllocState) (bp : Player) : AllocState :=
  match findSwapTarget st.active bp unt with
  | none => st
  | some i =>
      let displaced := st.active.getD i dfltEntry
      { active := st.active.set i (mkSwapEntry unt bp displaced)
        unassigned := (st.unassigned.erase bp) ++ [reconstructPlayer displaced] }

/-- A bench entry of the result (same dict as an active entry minus
`flag_injured` and `slot_type`; `flag_low_rank` is always `False`). -/
structure BenchEntry where
  name : String
  slot : String
  rank_30day : ℚ
  rank_14day : ℚ
  has_game_today : Bool
  injury_status : String
  is_untouchable : Bool
  flag_low_rank : Bool
  positions : List String
  ht_score : Option ℚ := none
  deriving DecidableEq, Repr

/-- The bench entry dict built in the bench-fill loop. -/
def mkBenchEntry (unt : List String) (p : Player) : BenchEntry :=
  { name := p.name
    slot := "BN"
    rank_30day := p.yahoo_30day_rank.getD 999
    rank_14day := p.yahoo_14day_rank.getD 999
    has_game_today := p.has_game_today
    injury_status := p.status.getD "healthy"
    is_untouchable := unt.contains p.name
    flag_low_rank := false
    positions := p.positions
    ht_score := p.ht_score }

/-- An `on_il` output entry. -/
structure ILEntry where
  name : String
  slot : String
  rank_30day : ℚ
  rank_14day : ℚ
  injury_status : String
  deriving DecidableEq, Repr

/-- The `il_formatted` projection. -/
def mkIlEntry (p : Player) : ILEntry :=
  { name := p.name
    slot := p.current_slot.getD "IL"
    rank_30day := p.yahoo_30day_rank.getD 999
    rank_14day := p.yahoo_14day_rank.getD 999
    injury_status := p.status.getD "INJ" }

/-- Result record of `build_lineup`. -/
structure LineupResult where
  active : List Entry
  bench : List BenchEntry
  on_il : List ILEntry
  deriving Repr

/-- Roster players whose `current_slot` is an IL-type slot ("IL"/"IL+"). -/
def onIlPlayers (roster : List Player) : List Player :=
  roster.filter fun p => ["IL", "IL+"].contains (p.current_slot.getD "BN")

/-- The `available` pool: non-IL players, shallow-copied with the
convenience fields `has_game_today` (defaulted) and `is_untouchable`
attached. -/
def availablePlayers (roster : List Player) (unt : List String) : List Player :=
  (roster.filter fun p => !(["IL", "IL+"].contains (p.current_slot.getD "BN"))).map
    fun p => { p with is_untouchable := unt.contains p.name }

/-- The state after both fill phases, starting from the available pool. -/
def fillPhases (roster : List Player) (unt : List String) : AllocState :=
  runFill FLEX_FILL_ORDER true false unt
    (runFill STABLE_FILL_ORDER false true unt
      ⟨[], availablePlayers roster unt⟩)

/-- The state after the game-day swap pass. -/
def swapPhase (roster : List Player) (unt : List String) : AllocState :=
  let st := fillPhases roster unt
  (benchWithGame st.unassigned unt).foldl (swapStep unt) st

/-- `build_lineup(roster, untouchables, games_today)`.  The `games_today`
argument is accepted but (as in the source) never consulted: game-day
information comes from each player's `has_game_today` field. -/
def buildLineup (roster : List Player) (unt : List String)
    (_gamesToday : List String) : LineupResult :=
  let st := swapPhase roster unt
  let remaining := sortByKey (fun p => rankSortKey p unt false) st.unassigned
  { active := st.active
    bench := (remaining.take BENCH_SLOTS.length).map (mkBenchEntry unt)
    on_il := (onIlPlayers roster).map mkIlEntry }

/-! ## optimizer.py — bench shape -/

/-- `_classify_bench_player` (reads `player.get("positions", [])`): centre
takes priority, then forward-type positions, then guard-type. -/
def classifyBenchPlayer (positions : List String) : Option String :=
  if positions.contains "C" then some "C"
  else if ["SF", "PF", "F"].any (fun p => positions.contains p) then some "F"
  else if ["PG", "SG", "G"].any (fun p => positions.contains p) then some "G"
  else none

/-- The running counts dict `{"G": 0, "F": 0, "C": 0}`. -/
structure BenchShape where
  g : Nat
  f : Nat
  c : Nat
  deriving DecidableEq, Repr

/-- `actual.get(cat, 0)`. -/
def BenchShape.get (a : BenchShape) (cat : String) : Nat :=
  if cat = "G" then a.g else if cat = "F" then a.f else if cat = "C" then a.c else 0

/-- `TARGET_BENCH_SHAPE.get(cat, 0)`. -/
def targetShapeGet (cat : String) : Nat :=
  match (TARGET_BENCH_SHAPE.filter fun kv => kv.1 = cat).head? with
  | some kv => kv.2
  | none => 0

/-- The counting loop of `check_bench_shape`. -/
def benchShapeCounts (bench : List BenchEntry) : BenchShape :=
  bench.foldl
    (fun acc e =>
      match classifyBenchPlayer e.positions with
      | some "G" => { acc with g := acc.g + 1 }
      | some "F" => { acc with f := acc.f + 1 }
      | some "C" => { acc with c := acc.c + 1 }
      | _ => acc)
    ⟨0, 0, 0⟩

/-- One `"{cat}: {have}/{want} (OK|NEED)"` part. -/
def benchShapePart (a : BenchShape) (cat : String) : String :=
  let hv := a.get cat
  let wnt := targetShapeGet cat
  let ind := if hv ≥ wnt then "OK" else "NEED"
  cat ++ ": " ++ toString hv ++ "/" ++ toString wnt ++ " (" ++ ind ++ ")"

/-- The parts list, built in the source's iteration order G, F, C. -/
def benchShapeParts (a : BenchShape) : List String :=
  ["G", "F", "C"].map (benchShapePart a)

/-- `check_bench_shape(bench) -> (actual, is_target_met, description)`. -/
def checkBenchShape (bench : List BenchEntry) : BenchShape × Bool × String :=
  let actual := benchShapeCounts bench
  let met := TARGET_BENCH_SHAPE.all fun kv => actual.get kv.1 ≥ kv.2
  (actual, met, String.intercalate " | " (benchShapeParts actual))

/-! ## il_manager.py -/

/-- `SHOULD_BE_ON_IL = {"INJ", "O"}`. -/
def SHOULD_BE_ON_IL : List String := ["INJ", "O"]

/-- `HEALTHY_STATUSES = {"healthy", ""}`. -/
def HEALTHY_STATUSES : List String := ["healthy", ""]

/-- `IL_SLOTS = {"IL", "IL+"}`. -/
def IL_SLOTS : List String := ["IL", "IL+"]

/-- `MAX_IL_SLOTS = 3`. -/
def MAX_IL_SLOTS : ℤ := 3

/-- A roster player dict as consumed by `check_il_flags` (every key is read
with `.get`). -/
structure ILP where
  name : Option String := none
  status : Option String := none
  current_slot : Option String := none
  eligible_positions : List String := []
  ht_score : Option ℚ := none
  deriving DecidableEq, Repr

/-- A bench player dict as consumed by `recommend_drop_for_activation`. -/
structure DropP where
  name : Option String := none
  eligible_positions : List String := []
  ht_score : Option ℚ := none
  ht_rank_14d : Option ℚ := none
  rank_14day : Option ℚ := none
  deriving DecidableEq, Repr

/-- The drop-candidate info dict returned by
`recommend_drop_for_activation` (the formatted `reason` string is
presentational and not modelled). -/
structure DropInfo where
  name : String
  positions : List String
  ht_score : Option ℚ
  rank_14day : ℚ
  deriving DecidableEq, Repr

/-- One element of the `candidates` list: the sort key (a 2-tuple compared
lexicographically, as Python compares tuples) plus the payload the source
carries alongside it. -/
structure DropCand where
  key : ℚ × ℚ
  p : DropP
  ht : Option ℚ
  rank14 : ℚ
  posOverlap : Bool
  deriving DecidableEq, Repr

/-- Strict lexicographic comparison of the 2-tuple sort keys
(`candidates.sort(key=lambda x: x[0])`). -/
def dropCandLt (a b : DropCand) : Bool :=
  decide (a.key.1 < b.key.1) || (decide (a.key.1 = b.key.1) && decide (a.key.2 < b.key.2))

/-- The candidate built for one bench player, or `none` for untouchables
(`continue`).  `rank_14 = p.get("ht_rank_14d") or p.get("rank_14day") or 0`
uses Python truthiness: both `None` and `0` fall through. -/
def mkDropCand (returningPositions : List String) (unt : List String)
    (p : DropP) : Option DropCand :=
  let name := p.name.getD "Unknown"
  if unt.contains name then none
  else
    let ht := p.ht_score
    let htSort := ht.getD (-999)
    let rank14 := (truthyQ p.ht_rank_14d).getD ((truthyQ p.rank_14day).getD 0)
    let posOverlap := returningPositions.any fun pos => p.eligible_positions.contains pos
    some { key := (htSort - (if posOverlap then 1 / 2 else 0), -rank14)
           p := p, ht := ht, rank14 := rank14, posOverlap := posOverlap }

/-- `recommend_drop_for_activation(returning_player, bench, untouchables)`:
`None` on an empty bench or an empty candidate list, otherwise the head of
the candidates sorted ascending by key (worst player first). -/
def recommendDropForActivation (returningPlayer : ILP) (bench : List DropP)
    (unt : List String) : Option DropInfo :=
  if bench.isEmpty then none
  else
    let candidates := bench.filterMap (mkDropCand returningPlayer.eligible_positions unt)
    if candidates.isEmpty then none
    else
      match (sortByLt dropCandLt candidates).head? with
      | none => none
      | some best =>
          some { name := best.p.name.getD "Unknown"
                 positions := best.p.eligible_positions
                 ht_score := best.ht
                 rank_14day := best.rank14 }

/-- A `should_move_to_il` entry (decision-relevant fields of the dict; the
formatted `action` string is not modelled). -/
structure MoveEntry where
  name : String
  status : String
  current_slot : String
  deriving DecidableEq, Repr

/-- A `should_activate_from_il` entry. -/
structure ActivateEntry where
  name : String
  current_slot : String
  returning_positions : List String
  returning_ht_score : Option ℚ
  drop_candidate : Option DropInfo
  deriving DecidableEq, Repr

/-- Result record of `check_il_flags`. -/
structure ILFlags where
  should_move_to_il : List MoveEntry
  should_activate_from_il : List ActivateEntry
  deriving DecidableEq, Repr

/-- Case-1 condition: hard injury designation while not on IL. -/
def ilMoveCond (p : ILP) : Bool :=
  SHOULD_BE_ON_IL.contains (p.status.getD "healthy")
    && !(IL_SLOTS.contains (p.current_slot.getD "BN"))

/-- Case-2 condition (the `elif` branch): on IL with a healthy status. -/
def ilActivateCond (p : ILP) : Bool :=
  IL_SLOTS.contains (p.current_slot.getD "BN")
    && HEALTHY_STATUSES.contains (p.status.getD "healthy")

/-- `il_occupied`: players whose `current_slot` (default `""`) is IL-type. -/
def ilOccupied (roster : List ILP) : Nat :=
  (roster.filter fun p => IL_SLOTS.contains (p.current_slot.getD "")).length

/-- The untrimmed `should_move_to_il` list. -/
def ilMoves (roster : List ILP) : List MoveEntry :=
  roster.filterMap fun p =>
    if ilMoveCond p then
      some { name := p.name.getD "Unknown"
             status := p.status.getD "healthy"
             current_slot := p.current_slot.getD "BN" }
    else none

/-- The `should_activate_from_il` list.  A drop recommendation is attached
only when bench data is supplied; `untouchables or {}` defaults to empty. -/
def ilActivates (roster : List ILP) (bench : Option (List DropP))
    (unt : Option (List String)) : List ActivateEntry :=
  roster.filterMap fun p =>
    if !ilMoveCond p && ilActivateCond p then
      some { name := p.name.getD "Unknown"
             current_slot := p.current_slot.getD "BN"
             returning_positions := p.eligible_positions
             returning_ht_score := p.ht_score
             drop_candidate :=
               match bench with
               | some b => recommendDropForActivation p b (unt.getD [])
               | none => none }
    else none

/-- `il_available = max(0, MAX_IL_SLOTS - il_occupied)`. -/
def ilAvailable (roster : List ILP) : Nat :=
  (max 0 (MAX_IL_SLOTS - (ilOccupied roster : ℤ))).toNat

/-- `check_il_flags(roster, bench=None, untouchables=None)`: collect both
flag lists, then trim move suggestions to the available IL slots. -/
def checkIlFlags (roster : List ILP) (bench : Option (List DropP) := none)
    (unt : Option (List String) := none) : ILFlags :=
  let moves := ilMoves roster
  let avail := ilAvailable roster
  { should_move_to_il := if moves.length > avail then moves.take avail else moves
    should_activate_from_il := ilActivates roster bench unt }

/-! ## waiver_scanner.py -/

/-- `FA_MAX_RANK_30 = 96`. -/
def FA_MAX_RANK_30 : ℚ := 96

/-- `FA_MIN_MPG = 28.0`. -/
def FA_MIN_MPG : ℚ := 28

/-- `FA_MIN_GAMES_30 = 5`. -/
def FA_MIN_GAMES_30 : ℚ := 5

/-- `FA_MAX_RANK_14 = 96`. -/
def FA_MAX_RANK_14 : ℚ := 96

/-- `DISQUALIFY_STATUSES`. -/
def DISQUALIFY_STATUSES : List String := ["INJ", "O", "NA", "SUSP", "IL"]

/-- A free-agent dict as consumed by the scanners. -/
structure FA where
  name : String
  positions : List String := []
  status : Option String := none
  yahoo_30day_rank : Option ℚ := none
  yahoo_14day_rank : Option ℚ := none
  mpg : Option ℚ := none
  games_last_30 : Option ℚ := none
  percent_owned : Option ℚ := none
  bm_score : Option ℚ := none
  games_remaining : Option ℚ := none
  bm_weekly_value : Option ℚ := none
  deriving DecidableEq, Repr

/-- `_fa_qualifies_active`. -/
def faQualifiesActive (fa : FA) : Bool :=
  if DISQUALIFY_STATUSES.contains (fa.status.getD "healthy") then false
  else if fa.yahoo_30day_rank.getD 999 > FA_MAX_RANK_30 then false
  else
    let mpg := fa.mpg.getD 0
    if mpg > 0 && mpg < FA_MIN_MPG then false
    else
      let games := fa.games_last_30.getD 0
      if games > 0 && games < FA_MIN_GAMES_30 then false
      else true

/-- `_fa_qualifies_bench` (14-day rank ceiling instead of 30-day). -/
def faQualifiesBench (fa : FA) : Bool :=
  if DISQUALIFY_STATUSES.contains (fa.status.getD "healthy") then false
  else if fa.yahoo_14day_rank.getD 999 > FA_MAX_RANK_14 then false
  else
    let mpg := fa.mpg.getD 0
    if mpg > 0 && mpg < FA_MIN_MPG then false
    else
      let games := fa.games_last_30.getD 0
      if games > 0 && games < FA_MIN_GAMES_30 then false
      else true

/-- `_shares_slot_eligibility(fa_positions, slot)`. -/
def sharesSlotEligibility (faPositions : List String) (slot : String) : Bool :=
  faPositions.any fun pos => (SLOT_ELIGIBILITY slot).contains pos

/-- `_bench_category(positions)` — identical logic to
`_classify_bench_player`. -/
def benchCategory (positions : List String) : Option String :=
  classifyBenchPlayer positions

/-- An active-lineup player dict as read by `scan_active_upgrades`
(`slot` via `.get("slot", "")`, `bm_score` via `.get`, `rank_30day` via
`.get(..., 999)`, `name` directly). -/
structure ScanActiveP where
  name : String
  slot : Option String := none
  bm_score : Option ℚ := none
  rank_30day : Option ℚ := none
  deriving DecidableEq, Repr

/-- A bench player dict as read by `scan_bench_upgrades`. -/
structure ScanBenchP where
  name : String
  positions : List String := []
  rank_14day : Option ℚ := none
  bm_score : Option ℚ := none
  games_remaining : Option ℚ := none
  deriving DecidableEq, Repr

/-- An active-upgrade opportunity dict (`fa_bm_score` is only set when the
FA has a BM score). -/
structure ActOpp where
  fa_name : String
  fa_positions : List String
  fa_30day_rank : ℚ
  fa_mpg : ℚ
  fa_percent_owned : ℚ
  replace_player_name : String
  replace_player_rank : ℚ
  replace_slot : String
  rank_improvement : ℚ
  is_untouchable_replace : Bool
  fa_bm_score : Option ℚ := none
  deriving DecidableEq, Repr

/-- The comparison branch of `scan_active_upgrades` for one (FA, active
player) pair: `none` models `continue`. -/
def activeImprovement (faBm currentBm : Option ℚ) (currentRank faRank30 : ℚ) :
    Option ℚ :=
  match faBm, currentBm with
  | some fb, some cb => some (fb - cb)
  | some fb, none => if fb ≤ 0 then none else some (currentRank - faRank30)
  | none, _ => some (currentRank - faRank30)

/-- The inner-loop body of `scan_active_upgrades`: the opportunity produced
for one (qualified FA, active player) pair, if any. -/
def mkActiveOpp (unt : List String) (fa : FA) (ap : ScanActiveP) :
    Option ActOpp :=
  let slot := ap.slot.getD ""
  if !sharesSlotEligibility fa.positions slot then none
  else
    let currentRank := ap.rank_30day.getD 999
    let faRank30 := fa.yahoo_30day_rank.getD 999
    match activeImprovement fa.bm_score ap.bm_score currentRank faRank30 with
    | none => none
    | some imp =>
        if imp ≤ 0 then none
        else
          some { fa_name := fa.name
                 fa_positions := fa.positions
                 fa_30day_rank := faRank30
                 fa_mpg := fa.mpg.getD 0
                 fa_percent_owned := fa.percent_owned.getD 0
                 replace_player_name := ap.name
                 replace_player_rank := currentRank
                 replace_slot := slot
                 rank_improvement := pyRound2 imp
                 is_untouchable_replace := unt.contains ap.name
                 fa_bm_score := fa.bm_score }

/-- The raw (pre-deduplication) opportunity list of
`scan_active_upgrades`: every qualified FA against every active player, in
loop order. -/
def rawActiveOpps (fas : List FA) (active : List ScanActiveP)
    (unt : List String) : List ActOpp :=
  ((fas.filter faQualifiesActive).map fun fa =>
    active.filterMap (mkActiveOpp unt fa)).flatten

/-- One step of the `seen_fa` dict pass: a first occurrence of a FA name
claims a slot at the end (dict insertion order); a later opportunity with
the same name replaces the stored value in place, only on a strictly larger
`rank_improvement`. -/
def dedupeStep {α : Type} (getName : α → String) (getImp : α → ℚ)
    (acc : List α) (o : α) : List α :=
  if acc.any (fun b => getName b = getName o) then
    acc.map fun b =>
      if getName b = getName o && getImp o > getImp b then o else b
  else acc ++ [o]

/-- The `seen_fa` dict pass over the whole raw opportunity list, keeping
per FA name the best opportunity (dict modelled as a list in insertion
order, its values read off in order at the end). -/
def dedupeBest {α : Type} (getName : α → String) (getImp : α → ℚ)
    (opps : List α) : List α :=
  opps.foldl (dedupeStep getName getImp) []

/-- `scan_active_upgrades(free_agents, active_lineup, untouchables)`:
dedupe per FA, then `sorted(..., key=lambda x: -x["rank_improvement"])`. -/
def scanActiveUpgrades (fas : List FA) (active : List ScanActiveP)
    (unt : List String) : List ActOpp :=
  sortByKey (fun o => -o.rank_improvement)
    (dedupeBest (fun o => o.fa_name) (fun o => o.rank_improvement)
      (rawActiveOpps fas active unt))

/-- A bench-upgrade opportunity dict (`fa_bm_score`, `fa_games_remaining`
and `fa_weekly_value` are conditionally present keys). -/
structure BenchOpp where
  fa_name : String
  fa_positions : List String
  fa_14day_rank : ℚ
  fa_mpg : ℚ
  fa_percent_owned : ℚ
  replace_player_name : String
  replace_player_rank : ℚ
  position_fit : String
  rank_improvement : ℚ
  is_untouchable_replace : Bool
  fa_bm_score : Option ℚ := none
  fa_games_remaining : Option ℚ := none
  fa_weekly_value : Option ℚ := none
  deriving DecidableEq, Repr

/-- `fa_weekly`: the explicit `bm_weekly_value` if present, else
`bm_score * games_remaining` when both are known and the game count is
truthy. -/
def faWeeklyValue (fa : FA) : Option ℚ :=
  match fa.bm_weekly_value with
  | some w => some w
  | none =>
      match fa.bm_score with
      | some b => if fa.games_remaining.getD 0 ≠ 0 then some (b * fa.games_remaining.getD 0) else none
      | none => none

/-- The comparison branch of `scan_bench_upgrades` for one (FA, bench
player) pair. -/
def benchImprovement (faWeekly benchBm : Option ℚ) (benchGames : ℚ)
    (faBm : Option ℚ) (benchRank14 faRank14 : ℚ) : Option ℚ :=
  match faWeekly, benchBm with
  | some fw, some bb =>
      some (fw - (if benchGames ≠ 0 then bb * benchGames else 0))
  | _, _ =>
      match faBm with
      | some fb => if fb ≤ 0 then none else some (benchRank14 - faRank14)
      | none => some (benchRank14 - faRank14)

/-- The inner-loop body of `scan_bench_upgrades`. -/
def mkBenchOpp (unt : List String) (fa : FA) (bp : ScanBenchP) :
    Option BenchOpp :=
  let faRank14 := fa.yahoo_14day_rank.getD 999
  let faCat := benchCategory fa.positions
  let benchRank14 := bp.rank_14day.getD 999
  let sharePos := fa.positions.any fun pos => bp.positions.contains pos
  if !sharePos && faCat ≠ benchCategory bp.positions then none
  else
    match benchImprovement (faWeeklyValue fa) bp.bm_score (bp.games_remaining.getD 0)
        fa.bm_score benchRank14 faRank14 with
    | none => none
    | some imp =>
        if imp ≤ 0 then none
        else
          some { fa_name := fa.name
                 fa_positions := fa.positions
                 fa_14day_rank := faRank14
                 fa_mpg := fa.mpg.getD 0
                 fa_percent_owned := fa.percent_owned.getD 0
                 replace_player_name := bp.name
                 replace_player_rank := benchRank14
                 position_fit := faCat.getD "?"
                 rank_improvement := pyRound2 imp
                 is_untouchable_replace := unt.contains bp.name
                 fa_bm_score := fa.bm_score
                 fa_games_remaining :=
                   if fa.games_remaining.getD 0 ≠ 0 then some (fa.games_remaining.getD 0) else none
                 fa_weekly_value := (faWeeklyValue fa).map pyRound2 }

/-- The raw (pre-deduplication) opportunity list of `scan_bench_upgrades`. -/
def rawBenchOpps (fas : List FA) (bench : List ScanBenchP)
    (unt : List String) : List BenchOpp :=
  ((fas.filter faQualifiesBench).map fun fa =>
    bench.filterMap (mkBenchOpp unt fa)).flatten

/-- `scan_bench_upgrades(free_agents, bench, untouchables)`. -/
def scanBenchUpgrades (fas : List FA) (bench : List ScanBenchP)
    (unt : List String) : List BenchOpp :=
  sortByKey (fun o => -o.rank_improvement)
    (dedupeBest (fun o => o.fa_name) (fun o => o.rank_improvement)
      (rawBenchOpps fas bench unt))

/-! ## Concrete inputs used by witnesses and counterexamples -/

/-- Eight centre-only players: a 8 ≤ 13 roster on which the greedy fill can
place only four players (stable C, flex C, two UTIL), so one player is
dropped from the bench. -/
def rosterEightCentres : List Player :=
  [ { name := "Ctr1", positions := ["C"], yahoo_30day_rank := some 1 },
    { name := "Ctr2", positions := ["C"], yahoo_30day_rank := some 2 },
    { name := "Ctr3", positions := ["C"], yahoo_30day_rank := some 3 },
    { name := "Ctr4", positions := ["C"], yahoo_30day_rank := some 4 },
    { name := "Ctr5", positions := ["C"], yahoo_30day_rank := some 5 },
    { name := "Ctr6", positions := ["C"], yahoo_30day_rank := some 6 },
    { name := "Ctr7", positions := ["C"], yahoo_30day_rank := some 7 },
    { name := "Ctr8", positions := ["C"], yahoo_30day_rank := some 8 } ]

/-- A roster player with an empty positions list (no position known). -/
def playerNoPositions : Player := { name := "Anon" }

/-- A tiny single-player roster. -/
def rosterOneGuard : List Player :=
  [ { name := "Solo", positions := ["PG"], yahoo_30day_rank := some 1 } ]

/-- A free agent clearly better (by 30-day rank) than `untouchableIncumbent`. -/
def hotFreeAgent : FA :=
  { name := "HotFA", positions := ["PG"], status := some "healthy",
    yahoo_30day_rank := some 10 }

/-- An active-lineup incumbent whose name will be marked untouchable. -/
def untouchableIncumbent : ScanActiveP :=
  { name := "Franchise", slot := some "PG", rank_30day := some 80 }

/-- A free agent whose BM score exceeds the incumbent's by only 0.001, so the
positive raw improvement rounds to 0.00. -/
def tinyEdgeFA : FA :=
  { name := "TinyEdge", positions := ["PG"], status := some "healthy",
    yahoo_30day_rank := some 50, bm_score := some (2001 / 1000) }

/-- The incumbent compared against `tinyEdgeFA`. -/
def scoredIncumbent : ScanActiveP :=
  { name := "Scored", slot := some "PG", bm_score := some 2, rank_30day := some 40 }

/-- IL-manager roster for the capacity scenario: IL capacity 3, two occupied
IL slots, four detected move-to-IL candidates. -/
def rosterIlScenario : List ILP :=
  [ { name := some "OnIl1", status := some "INJ", current_slot := some "IL" },
    { name := some "OnIl2", status := some "INJ", current_slot := some "IL+" },
    { name := some "Hurt1", status := some "INJ", current_slot := some "BN" },
    { name := some "Hurt2", status := some "O", current_slot := some "PF" },
    { name := some "Hurt3", status := some "INJ", current_slot := some "PG" },
    { name := some "Hurt4", status := some "O", current_slot := some "BN" } ]

/-- Bench of one centre-eligible and one guard-eligible player (the
bench-shape scenario). -/
def benchCentreGuard : List BenchEntry :=
  [ mkBenchEntry [] { name := "TallGuy", positions := ["C"] },
    mkBenchEntry [] { name := "QuickGuy", positions := ["PG"] } ]

/-- A bench whose every player is untouchable. -/
def benchAllUntouchable : List DropP :=
  [ { name := some "Keep1" }, { name := some "Keep2" } ]

/-- A healthy player sitting in an IL slot. -/
def returningIlPlayer : ILP :=
  { name := some "Returning", status := some "healthy", current_slot := some "IL",
    eligible_positions := ["SF"] }

/-- An active lineup with one stable-slot and one flex-slot occupant, both
without a game today. -/
def activeStableAndFlex : List Entry :=
  [ { name := "StablePG", slot := "PG", rank_30day := 5, rank_14day := 5,
      has_game_today := false, injury_status := "healthy", is_untouchable := false,
      flag_low_rank := false, flag_injured := false, positions := ["PG"],
      slot_type := "stable" },
    { name := "FlexUtil", slot := "UTIL", rank_30day := 50, rank_14day := 50,
      has_game_today := false, injury_status := "healthy", is_untouchable := false,
      flag_low_rank := false, flag_injured := false, positions := ["SF"],
      slot_type := "flex" } ]

/-- A benched player with a game today, eligible for both slots of
`activeStableAndFlex`. -/
def benchHotPlayer : Player :=
  { name := "BenchHot", positions := ["PG", "SF"], status := some "healthy",
    yahoo_30day_rank := some 30, has_game_today := true }

/-- A drop-eligible bench for the IL-advisor witness. -/
def benchOneDroppable : List DropP :=
  [ { name := some "Fringe", eligible_positions := ["SF"], ht_score := some 1 } ]

/-- A free agent with a negative composite (BM) score. -/
def negBmFA : FA :=
  { name := "NegBM", positions := ["PG"], status := some "healthy",
    yahoo_30day_rank := some 50, yahoo_14day_rank := some 50, bm_score := some (-1) }

/-- An unscored active incumbent (no BM score). -/
def unscoredIncumbent : ScanActiveP :=
  { name := "Unscored", slot := some "PG", rank_30day := some 90 }

/-- An unscored bench incumbent (no BM score). -/
def unscoredBenchIncumbent : ScanBenchP :=
  { name := "BenchUnscored", positions := ["PG"], rank_14day := some 100 }

/-- A free agent qualifying for the bench scan by 14-day rank. -/
def benchScanFA : FA :=
  { name := "BenchFA", positions := ["PG"], status := some "healthy",
    yahoo_14day_rank := some 20 }

/-- Positions lists meet when they share at least one code. -/
def positionsMeet (ps qs : List String) : Bool :=
  ps.any fun x => qs.contains x

/-! ## General lemmas: stable sort, Python max, rounding -/

theorem insertByLt_perm {α : Type} (lt : α → α → Bool) (a : α) (l : List α) :
    (insertByLt lt a l).Perm (a :: l) := by
  induction l with
  | nil => simp [insertByLt]
  | cons b t ih =>
      by_cases h : lt a b = true
      · simp [insertByLt, h]
      · simp only [insertByLt, h, if_false, Bool.false_eq_true]
        exact ((ih.cons b).trans (List.Perm.swap a b t))

theorem sortByLt_go_perm {α : Type} (lt : α → α → Bool) :
    ∀ (l acc : List α),
      (l.foldl (fun acc x => insertByLt lt x acc) acc).Perm (l ++ acc) := by
  intro l
  induction l with
  | nil => intro acc; simp
  | cons x t ih =>
      intro acc
      have h1 := ih (insertByLt lt x acc)
      have h2 : (t ++ insertByLt lt x acc).Perm (t ++ x :: acc) :=
        List.Perm.append_left t (insertByLt_perm lt x acc)
      have h3 : (t ++ x :: acc).Perm (x :: (t ++ acc)) :=
        List.perm_middle
      simpa using (h1.trans (h2.trans h3))

theorem sortByLt_perm {α : Type} (lt : α → α → Bool) (l : List α) :
    (sortByLt lt l).Perm l := by
  simpa using sortByLt_go_perm lt l []

theorem sortByKey_perm {α : Type} (key : α → ℚ) (l : List α) :
    (sortByKey key l).Perm l := sortByLt_perm _ l

theorem insertByKey_sorted {α : Type} (key : α → ℚ) (a : α) (l : List α)
    (h : l.Pairwise fun x y => key x ≤ key y) :
    (insertByLt (fun x y => decide (key x < key y)) a l).Pairwise
      fun x y => key x ≤ key y := by
  induction l with
  | nil => simp [insertByLt]
  | cons b t ih =>
      rcases List.pairwise_cons.mp h with ⟨hb, ht⟩
      by_cases hab : decide (key a < key b) = true
      · have hab' : key a < key b := of_decide_eq_true hab
        simp only [insertByLt, hab, if_true]
        refine List.pairwise_cons.mpr ⟨?_, h⟩
        intro x hx
        rcases List.mem_cons.mp hx with rfl | hx
        · exact le_of_lt hab'
        · exact le_trans (le_of_lt hab') (hb x hx)
      · have hab' : key b ≤ key a := le_of_not_lt (fun hc => hab (decide_eq_true hc))
        simp only [insertByLt, hab, if_false, Bool.false_eq_true]
        refine List.pairwise_cons.mpr ⟨?_, ih ht⟩
        intro x hx
        have := (insertByLt_perm (fun x y => decide (key x < key y)) a t).mem_iff.mp hx
        rcases List.mem_cons.mp this with rfl | hx'
        · exact hab'
        · exact hb x hx'

theorem sortByKey_go_sorted {α : Type} (key : α → ℚ) :
    ∀ (l acc : List α),
      (acc.Pairwise fun x y => key x ≤ key y) →
      ((l.foldl (fun acc x => insertByLt (fun a b => decide (key a < key b)) x acc) acc).Pairwise
        fun x y => key x ≤ key y) := by
  intro l
  induction l with
  | nil => intro acc h; simpa using h
  | cons x t ih =>
      intro acc h
      exact ih _ (insertByKey_sorted key x acc h)

theorem sortByKey_sorted {α : Type} (key : α → ℚ) (l : List α) :
    (sortByKey key l).Pairwise fun x y => key x ≤ key y := by
  have := sortByKey_go_sorted key l [] (by simp)
  simpa [sortByKey, sortByLt] using this

theorem pyMaxBy_go {α : Type} (key : α → ℚ) :
    ∀ (l : List α) (b : α),
      ∃ c, (l.foldl (fun best a =>
              match best with
              | none => some a
              | some b' => if key a > key b' then some a else some b') (some b)) = some c
        ∧ (c = b ∨ c ∈ l) ∧ key b ≤ key c ∧ ∀ x ∈ l, key x ≤ key c := by
  intro l
  induction l with
  | nil => intro b; exact ⟨b, rfl, Or.inl rfl, le_refl _, by simp⟩
  | cons a t ih =>
      intro b
      by_cases hab : key a > key b
      · rcases ih a with ⟨c, hc, hmem, hle, hall⟩
        refine ⟨c, ?_, ?_, ?_, ?_⟩
        · simpa [hab] using hc
        · rcases hmem with rfl | h
          · exact Or.inr (List.mem_cons_self _ _)
          · exact Or.inr (List.mem_cons_of_mem _ h)
        · exact le_trans (le_of_lt hab) hle
        · intro x hx
          rcases List.mem_cons.mp hx with rfl | hx
          · exact hle
          · exact hall x hx
      · rcases ih b with ⟨c, hc, hmem, hle, hall⟩
        refine ⟨c, ?_, ?_, ?_, ?_⟩
        · simpa [hab] using hc
        · rcases hmem with rfl | h
          · exact Or.inl rfl
          · exact Or.inr (List.mem_cons_of_mem _ h)
        · exact hle
        · intro x hx
          rcases List.mem_cons.mp hx with rfl | hx
          · exact le_trans (le_of_not_lt hab) hle
          · exact hall x hx

theorem pyMaxBy_spec {α : Type} (key : α → ℚ) (a : α) (t : List α) :
    ∃ c, pyMaxBy key (a :: t) = some c ∧ c ∈ a :: t ∧ ∀ x ∈ a :: t, key x ≤ key c := by
  rcases pyMaxBy_go key t a with ⟨c, hc, hmem, hle, hall⟩
  refine ⟨c, ?_, ?_, ?_⟩
  · simpa [pyMaxBy] using hc
  · rcases hmem with rfl | h
    · exact List.mem_cons_self _ _
    · exact List.mem_cons_of_mem _ h
  · intro x hx
    rcases List.mem_cons.mp hx with rfl | hx
    · exact hle
    · exact hall x hx

theorem pyRound2_nonneg {q : ℚ} (hq : 0 < q) : 0 ≤ pyRound2 q := by
  have h100 : (0 : ℚ) < q * 100 := by positivity
  have hfloor : (0 : ℤ) ≤ ⌊q * 100⌋ := Int.floor_nonneg.mpr (le_of_lt h100)
  have : (0 : ℤ) ≤ roundHalfEven (q * 100) := by
    unfold roundHalfEven
    split_ifs <;> omega
  unfold pyRound2
  have : (0 : ℚ) ≤ (roundHalfEven (q * 100) : ℚ) := by exact_mod_cast this
  positivity

/-! ## List indexing and permutation helpers -/

theorem set_perm_cons_eraseIdx {α : Type} :
    ∀ (l : List α) (i : Nat) (a : α), i < l.length →
      (l.set i a).Perm (a :: l.eraseIdx i) := by
  intro l
  induction l with
  | nil => intro i a h; simp at h
  | cons b t ih =>
      intro i a h
      cases i with
      | zero => simp
      | succ n =>
          have hn : n < t.length := by simpa using h
          simpa using ((ih n a hn).cons b).trans (List.Perm.swap a b _)

theorem perm_getD_cons_eraseIdx {α : Type} (d : α) :
    ∀ (l : List α) (i : Nat), i < l.length →
      l.Perm (l.getD i d :: l.eraseIdx i) := by
  intro l
  induction l with
  | nil => intro i h; simp at h
  | cons b t ih =>
      intro i h
      cases i with
      | zero => simp
      | succ n =>
          have hn : n < t.length := by simpa using h
          simpa using ((ih n hn).cons b).trans (List.Perm.swap _ b _)

theorem getD_mem_of_lt {α : Type} (l : List α) (i : Nat) (d : α)
    (h : i < l.length) : l.getD i d ∈ l :=
  (perm_getD_cons_eraseIdx d l i h).symm.subset (List.mem_cons_self _ _)

/-! ## Swap-pass selection lemmas -/

theorem mem_tierCandidates {active : List Entry} {bp : Player}
    {t : String × String} {i : Nat} :
    i ∈ tierCandidates active bp t ↔
      i < active.length ∧ (active.getD i dfltEntry).slot = t.1 ∧
        (active.getD i dfltEntry).slot_type = t.2 ∧
        (active.getD i dfltEntry).has_game_today = false ∧
        playerEligibleForSlot bp t.1 = true := by
  unfold tierCandidates
  constructor
  · intro h
    rcases List.mem_map.mp h with ⟨ie, hfil, hfst⟩
    rcases List.mem_filter.mp hfil with ⟨henum, hpred⟩
    have hget : active[ie.1]? = some ie.2 := List.mem_enum_iff_getElem?.mp henum
    have hlt : ie.1 < active.length := by
      rcases List.getElem?_eq_some.mp hget with ⟨hw, _⟩
      exact hw
    have hgetD : active.getD ie.1 dfltEntry = ie.2 := by
      rw [List.getD_eq_getElem?_getD, hget]; rfl
    subst hfst
    simp only [Bool.and_eq_true, decide_eq_true_eq, Bool.not_eq_true'] at hpred
    exact ⟨hlt, by rw [hgetD]; exact hpred.1.1.1, by rw [hgetD]; exact hpred.1.1.2,
      by rw [hgetD]; exact hpred.1.2, hpred.2⟩
  · rintro ⟨hlt, h1, h2, h3, h4⟩
    refine List.mem_map.mpr ⟨(i, active.getD i dfltEntry), List.mem_filter.mpr ⟨?_, ?_⟩, rfl⟩
    · refine List.mem_enum_iff_getElem?.mpr ?_
      rw [List.getElem?_eq_getElem hlt]
      simp [List.getD_eq_getElem?_getD, List.getElem?_eq_getElem hlt]
    · simp only [Bool.and_eq_true, decide_eq_true_eq, Bool.not_eq_true']
      exact ⟨⟨⟨h1, h2⟩, h3⟩, h4⟩

theorem findSwapGo_some_spec {active : List Entry} {bp : Player} {unt : List String} :
    ∀ (ts : List (String × String)) (i : Nat),
      findSwapGo active bp unt ts = some i →
      ∃ k, k < ts.length ∧
        (∀ m, m < k → tierCandidates active bp (ts.getD m ("", "")) = []) ∧
        i ∈ tierCandidates active bp (ts.getD k ("", "")) ∧
        ∀ j ∈ tierCandidates active bp (ts.getD k ("", "")),
          rankSortKeyEntry (active.getD j dfltEntry) unt ≤
            rankSortKeyEntry (active.getD i dfltEntry) unt := by
  intro ts
  induction ts with
  | nil => intro i h; simp [findSwapGo] at h
  | cons t rest ih =>
      intro i h
      cases hc : tierCandidates active bp t with
      | nil =>
          rw [findSwapGo, hc] at h
          simp only [List.isEmpty_nil, if_true] at h
          rcases ih i h with ⟨k, hk, hpre, hmem, hmax⟩
          refine ⟨k + 1, by simpa using Nat.succ_lt_succ hk, ?_, by simpa using hmem,
            by simpa using hmax⟩
          intro m hm
          cases m with
          | zero => simpa using hc
          | succ n => simpa using hpre n (by omega)
      | cons a l' =>
          rw [findSwapGo, hc] at h
          simp only [List.isEmpty_cons, if_false, Bool.false_eq_true] at h
          rcases pyMaxBy_spec
              (fun j => rankSortKeyEntry (active.getD j dfltEntry) unt) a l' with
            ⟨c, hcEq, hcMem, hcAll⟩
          rw [hcEq] at h
          cases h
          refine ⟨0, by simp, by omega, ?_, ?_⟩
          · simpa [hc] using hcMem
          · intro j hj
            exact hcAll j (by simpa [hc] using hj)

theorem findSwapGo_none_spec {active : List Entry} {bp : Player} {unt : List String} :
    ∀ (ts : List (String × String)),
      findSwapGo active bp unt ts = none →
      ∀ t ∈ ts, tierCandidates active bp t = [] := by
  intro ts
  induction ts with
  | nil => intro _ t ht; simp at ht
  | cons t rest ih =>
      intro h t' ht'
      cases hc : tierCandidates active bp t with
      | nil =>
          rw [findSwapGo, hc] at h
          simp only [List.isEmpty_nil, if_true] at h
          rcases List.mem_cons.mp ht' with rfl | ht'
          · exact hc
          · exact ih h t' ht'
      | cons a l' =>
          rw [findSwapGo, hc] at h
          simp only [List.isEmpty_cons, if_false, Bool.false_eq_true] at h
          rcases pyMaxBy_spec
              (fun j => rankSortKeyEntry (active.getD j dfltEntry) unt) a l' with
            ⟨c, hcEq, _, _⟩
          rw [hcEq] at h
          cases h

/-! ## Deduplication invariants -/

theorem dedupeStep_names {α : Type} (getName : α → String) (getImp : α → ℚ)
    (acc : List α) (o : α)
    (h : acc.any (fun b => getName b = getName o) = true) :
    (dedupeStep getName getImp acc o).map getName = acc.map getName := by
  unfold dedupeStep
  rw [if_pos h, List.map_map]
  apply List.map_congr_left
  intro b _
  simp only [Function.comp_apply]
  by_cases hcond : (getName b = getName o && decide (getImp o > getImp b)) = true
  · rw [if_pos hcond]
    have hcond' := hcond
    simp only [Bool.and_eq_true, decide_eq_true_eq] at hcond'
    exact hcond'.1.symm
  · rw [if_neg hcond]

theorem dedupeBest_go {α : Type} (getName : α → String) (getImp : α → ℚ) :
    ∀ (rest acc : List α),
      ((acc.map getName).Nodup) →
      (((rest.foldl (dedupeStep getName getImp) acc).map getName).Nodup)
      ∧ (∀ b ∈ rest.foldl (dedupeStep getName getImp) acc, b ∈ acc ∨ b ∈ rest)
      ∧ (∀ b ∈ rest.foldl (dedupeStep getName getImp) acc, ∀ o ∈ rest,
          getName o = getName b → getImp o ≤ getImp b)
      ∧ (∀ b ∈ rest.foldl (dedupeStep getName getImp) acc, ∀ b0 ∈ acc,
          getName b0 = getName b → getImp b0 ≤ getImp b) := by
  intro rest
  induction rest with
  | nil =>
      intro acc hnd
      refine ⟨hnd, fun b hb => Or.inl hb, by simp, ?_⟩
      intro b hb b0 hb0 hname
      have : b0 = b := List.inj_on_of_nodup_map hnd hb0 hb hname
      exact this ▸ le_refl _
  | cons x rest' ih =>
      intro acc hnd
      simp only [List.foldl_cons]
      by_cases hany : acc.any (fun b => getName b = getName x) = true
      -- Case A: the name is already stored; the dict value is updated in place
      · have hstep : dedupeStep getName getImp acc x =
            acc.map fun b =>
              if getName b = getName x && getImp x > getImp b then x else b := by
          unfold dedupeStep; rw [if_pos hany]
        have hnames := dedupeStep_names getName getImp acc x hany
        have hnd' : ((dedupeStep getName getImp acc x).map getName).Nodup := by
          rw [hnames]; exact hnd
        rcases ih (dedupeStep getName getImp acc x) hnd' with ⟨ih1, ih2, ih4, ih5⟩
        -- Every stored element keeps at least its old improvement,
        -- and any stored element carrying x's name dominates x.
        have hupd_mem : ∀ b' ∈ dedupeStep getName getImp acc x,
            ∃ b0 ∈ acc, b' = (if getName b0 = getName x && getImp x > getImp b0 then x else b0) := by
          intro b' hb'
          rw [hstep] at hb'
          rcases List.mem_map.mp hb' with ⟨b0, hb0, hEq⟩
          exact ⟨b0, hb0, hEq.symm⟩
        have hupd_ge : ∀ b0 : α,
            getImp b0 ≤ getImp (if getName b0 = getName x && getImp x > getImp b0 then x else b0) := by
          intro b0
          by_cases hcond : (getName b0 = getName x && decide (getImp x > getImp b0)) = true
          · rw [if_pos hcond]
            have hcond' := hcond
            simp only [Bool.and_eq_true, decide_eq_true_eq] at hcond'
            exact le_of_lt hcond'.2
          · rw [if_neg hcond]
        have hupd_x : ∀ b0 : α, getName b0 = getName x →
            getImp x ≤ getImp (if getName b0 = getName x && getImp x > getImp b0 then x else b0) := by
          intro b0 hname
          by_cases hcond : (getName b0 = getName x && decide (getImp x > getImp b0)) = true
          · rw [if_pos hcond]
          · rw [if_neg hcond]
            have : ¬ getImp x > getImp b0 := by
              intro hgt
              apply hcond
              simp only [Bool.and_eq_true, decide_eq_true_eq]
              exact ⟨hname, hgt⟩
            exact le_of_not_lt this
        refine ⟨ih1, ?_, ?_, ?_⟩
        · intro b hb
          rcases ih2 b hb with hb' | hb'
          · rcases hupd_mem b hb' with ⟨b0, hb0, hEq⟩
            by_cases hcond : (getName b0 = getName x && decide (getImp x > getImp b0)) = true
            · right; rw [hEq, if_pos hcond]; exact List.mem_cons_self _ _
            · left; rw [hEq, if_neg hcond]; exact hb0
          · exact Or.inr (List.mem_cons_of_mem _ hb')
        · intro b hb o ho hname
          rcases List.mem_cons.mp ho with rfl | ho'
          · -- o = x: some stored element carries x's name and dominates x
            rcases List.any_eq_true.mp hany with ⟨b0, hb0, hb0name⟩
            have hb0name' : getName b0 = getName o := decide_eq_true_eq.mp hb0name
            have hb0' : (if getName b0 = getName o && getImp o > getImp b0 then o else b0) ∈
                dedupeStep getName getImp acc o := by
              rw [hstep]
              exact List.mem_map.mpr ⟨b0, hb0, rfl⟩
            have hgex : getImp o ≤
                getImp (if getName b0 = getName o && getImp o > getImp b0 then o else b0) :=
              hupd_x b0 hb0name'
            have hnameeq : getName
                (if getName b0 = getName o && getImp o > getImp b0 then o else b0) = getName b := by
              by_cases hcond : (getName b0 = getName o && decide (getImp o > getImp b0)) = true
              · rw [if_pos hcond]; exact hname
              · rw [if_neg hcond]; rw [hb0name']; exact hname
            exact le_trans hgex (ih5 b hb _ hb0' hnameeq)
          · exact ih4 b hb o ho' hname
        · intro b hb b0 hb0 hname
          have hb0' : (if getName b0 = getName x && getImp x > getImp b0 then x else b0) ∈
              dedupeStep getName getImp acc x := by
            rw [hstep]
            exact List.mem_map.mpr ⟨b0, hb0, rfl⟩
          have hnameeq : getName
              (if getName b0 = getName x && getImp x > getImp b0 then x else b0) = getName b := by
            by_cases hcond : (getName b0 = getName x && decide (getImp x > getImp b0)) = true
            · rw [if_pos hcond]
              have hcond' := hcond
              simp only [Bool.and_eq_true, decide_eq_true_eq] at hcond'
              rw [← hcond'.1]; exact hname
            · rw [if_neg hcond]; exact hname
          exact le_trans (hupd_ge b0) (ih5 b hb _ hb0' hnameeq)
      -- Case B: a new name is appended at the end of the dict
      · have hstep : dedupeStep getName getImp acc x = acc ++ [x] := by
          unfold dedupeStep; rw [if_neg hany]
        have hnotmem : getName x ∉ acc.map getName := by
          intro hmem
          rcases List.mem_map.mp hmem with ⟨b0, hb0, hEq⟩
          have : acc.any (fun b => getName b = getName x) = true :=
            List.any_eq_true.mpr ⟨b0, hb0, decide_eq_true_eq.mpr hEq⟩
          exact hany this
        have hnd' : ((dedupeStep getName getImp acc x).map getName).Nodup := by
          rw [hstep, List.map_append]
          simp only [List.map_cons, List.map_nil]
          rw [List.nodup_append]
          exact ⟨hnd, List.nodup_singleton _,
            by intro a ha hb; simp at hb; subst hb; exact hnotmem ha⟩
        rcases ih (dedupeStep getName getImp acc x) hnd' with ⟨ih1, ih2, ih4, ih5⟩
        refine ⟨ih1, ?_, ?_, ?_⟩
        · intro b hb
          rcases ih2 b hb with hb' | hb'
          · rw [hstep] at hb'
            rcases List.mem_append.mp hb' with h | h
            · exact Or.inl h
            · simp at h; subst h; exact Or.inr (List.mem_cons_self _ _)
          · exact Or.inr (List.mem_cons_of_mem _ hb')
        · intro b hb o ho hname
          rcases List.mem_cons.mp ho with rfl | ho'
          · have hmem : o ∈ dedupeStep getName getImp acc o := by
              rw [hstep]; exact List.mem_append.mpr (Or.inr (List.mem_cons_self _ _))
            exact ih5 b hb o hmem hname
          · exact ih4 b hb o ho' hname
        · intro b hb b0 hb0 hname
          have hmem : b0 ∈ dedupeStep getName getImp acc x := by
            rw [hstep]; exact List.mem_append.mpr (Or.inl hb0)
          exact ih5 b hb b0 hmem hname

theorem dedupeBest_spec {α : Type} (getName : α → String) (getImp : α → ℚ)
    (opps : List α) :
    (((dedupeBest getName getImp opps).map getName).Nodup)
    ∧ (∀ b ∈ dedupeBest getName getImp opps, b ∈ opps)
    ∧ (∀ b ∈ dedupeBest getName getImp opps, ∀ o ∈ opps,
        getName o = getName b → getImp o ≤ getImp b) := by
  rcases dedupeBest_go getName getImp opps [] (by simp) with ⟨h1, h2, h4, _⟩
  refine ⟨h1, ?_, h4⟩
  intro b hb
  rcases h2 b hb with h | h
  · simp at h
  · exact h

/-! ## Waiver-scanner lemmas -/

theorem sortDedupe_spec {α : Type} (getName : α → String) (getImp : α → ℚ)
    (raw : List α) :
    (((sortByKey (fun o => -(getImp o)) (dedupeBest getName getImp raw)).map getName).Nodup)
    ∧ (∀ o ∈ sortByKey (fun o => -(getImp o)) (dedupeBest getName getImp raw),
        o ∈ raw ∧ ∀ r ∈ raw, getName r = getName o → getImp r ≤ getImp o)
    ∧ (sortByKey (fun o => -(getImp o)) (dedupeBest getName getImp raw)).Pairwise
        (fun a b => getImp b ≤ getImp a) := by
  rcases dedupeBest_spec getName getImp raw with ⟨hnd, hmem, hmax⟩
  have hperm := sortByKey_perm (fun o => -(getImp o)) (dedupeBest getName getImp raw)
  refine ⟨?_, ?_, ?_⟩
  · exact (hperm.map getName).nodup_iff.mpr hnd
  · intro o ho
    have ho' : o ∈ dedupeBest getName getImp raw := hperm.subset ho
    exact ⟨hmem o ho', hmax o ho'⟩
  · have hs := sortByKey_sorted (fun o => -(getImp o)) (dedupeBest getName getImp raw)
    exact hs.imp fun h => by simpa using h

theorem mkActiveOpp_some_props {unt : List String} {fa : FA} {ap : ScanActiveP}
    {o : ActOpp} (h : mkActiveOpp unt fa ap = some o) :
    0 ≤ o.rank_improvement
    ∧ o.is_untouchable_replace = unt.contains o.replace_player_name := by
  simp only [mkActiveOpp] at h
  split at h
  · cases h
  · split at h
    · cases h
    · rename_i imp himp
      split at h
      · cases h
      · rename_i hle
        have hpos : 0 < imp := lt_of_not_le hle
        simp only [Option.some.injEq] at h
        subst h
        exact ⟨pyRound2_nonneg hpos, rfl⟩

theorem mkActiveOpp_neg_bm_skip {unt : List String} {fa : FA} {ap : ScanActiveP}
    {b : ℚ} (hfa : fa.bm_score = some b) (hb : b ≤ 0) (hap : ap.bm_score = none) :
    mkActiveOpp unt fa ap = none := by
  simp only [mkActiveOpp, hfa, hap, activeImprovement]
  simp [hb]

theorem mkBenchOpp_some_props {unt : List String} {fa : FA} {bp : ScanBenchP}
    {o : BenchOpp} (h : mkBenchOpp unt fa bp = some o) :
    0 ≤ o.rank_improvement
    ∧ o.is_untouchable_replace = unt.contains o.replace_player_name := by
  simp only [mkBenchOpp] at h
  split at h
  · cases h
  · split at h
    · cases h
    · rename_i imp himp
      split at h
      · cases h
      · rename_i hle
        have hpos : 0 < imp := lt_of_not_le hle
        simp only [Option.some.injEq] at h
        subst h
        exact ⟨pyRound2_nonneg hpos, rfl⟩

theorem mkBenchOpp_neg_bm_skip {unt : List String} {fa : FA} {bp : ScanBenchP}
    {b : ℚ} (hfa : fa.bm_score = some b) (hb : b ≤ 0) (hbp : bp.bm_score = none) :
    mkBenchOpp unt fa bp = none := by
  cases hfw : faWeeklyValue fa with
  | none =>
      simp only [mkBenchOpp, hfw, hbp, hfa, benchImprovement]
      simp [hb]
  | some fw =>
      simp only [mkBenchOpp, hfw, hbp, hfa, benchImprovement]
      simp [hb]

theorem rawActiveOpps_elim {fas : List FA} {active : List ScanActiveP}
    {unt : List String} {o : ActOpp} (h : o ∈ rawActiveOpps fas active unt) :
    ∃ fa ∈ fas, ∃ ap ∈ active, mkActiveOpp unt fa ap = some o := by
  unfold rawActiveOpps at h
  rcases List.mem_flatten.mp h with ⟨l, hl, hol⟩
  rcases List.mem_map.mp hl with ⟨fa, hfa, rfl⟩
  rcases List.mem_filterMap.mp hol with ⟨ap, hap, hmk⟩
  exact ⟨fa, (List.mem_filter.mp hfa).1, ap, hap, hmk⟩

theorem rawBenchOpps_elim {fas : List FA} {bench : List ScanBenchP}
    {unt : List String} {o : BenchOpp} (h : o ∈ rawBenchOpps fas bench unt) :
    ∃ fa ∈ fas, ∃ bp ∈ bench, mkBenchOpp unt fa bp = some o := by
  unfold rawBenchOpps at h
  rcases List.mem_flatten.mp h with ⟨l, hl, hol⟩
  rcases List.mem_map.mp hl with ⟨fa, hfa, rfl⟩
  rcases List.mem_filterMap.mp hol with ⟨bp, hbp, hmk⟩
  exact ⟨fa, (List.mem_filter.mp hfa).1, bp, hbp, hmk⟩

/-! ## IL-advisor lemmas -/

theorem mkDropCand_some {ret unt : List String} {p : DropP} {c : DropCand}
    (h : mkDropCand ret unt p = some c) :
    c.p = p ∧ unt.contains (p.name.getD "Unknown") = false := by
  simp only [mkDropCand] at h
  split at h
  · cases h
  · rename_i hcon
    simp only [Option.some.injEq] at h
    subst h
    exact ⟨rfl, by simpa using hcon⟩

theorem recommendDrop_not_untouchable {rp : ILP} {bench : List DropP}
    {unt : List String} {d : DropInfo}
    (h : recommendDropForActivation rp bench unt = some d) : d.name ∉ unt := by
  simp only [recommendDropForActivation] at h
  split at h
  · cases h
  · split at h
    · cases h
    · cases hs : (sortByLt dropCandLt
          (bench.filterMap (mkDropCand rp.eligible_positions unt))).head? with
      | none => rw [hs] at h; cases h
      | some best =>
          rw [hs] at h
          simp only [Option.some.injEq] at h
          subst h
          have hmemSorted : best ∈ sortByLt dropCandLt
              (bench.filterMap (mkDropCand rp.eligible_positions unt)) :=
            List.mem_of_mem_head? (by rw [hs]; exact rfl)
          have hmemCand : best ∈ bench.filterMap (mkDropCand rp.eligible_positions unt) :=
            (sortByLt_perm dropCandLt _).subset hmemSorted
          rcases List.mem_filterMap.mp hmemCand with ⟨p, _, hmk⟩
          rcases mkDropCand_some hmk with ⟨hp, hcon⟩
          intro hmem
          rw [hp] at hmem
          simp only at hmem
          have : unt.contains (p.name.getD "Unknown") = true := by simpa using hmem
          rw [hcon] at this
          cases this

theorem recommendDrop_all_untouchable {rp : ILP} {bench : List DropP}
    {unt : List String} (h : ∀ p ∈ bench, p.name.getD "Unknown" ∈ unt) :
    recommendDropForActivation rp bench unt = none := by
  have hcand : bench.filterMap (mkDropCand rp.eligible_positions unt) = [] := by
    rw [List.filterMap_eq_nil_iff]
    intro p hp
    simp only [mkDropCand]
    rw [if_pos (by simpa using h p hp)]
  simp only [recommendDropForActivation, hcand]
  split
  · rfl
  · rfl

theorem checkIlFlags_activate_entry {roster : List ILP} {bench : List DropP}
    {unt : List String} {p : ILP} (hp : p ∈ roster)
    (hact : ilActivateCond p = true) :
    ∃ e ∈ (checkIlFlags roster (some bench) (some unt)).should_activate_from_il,
      e.name = p.name.getD "Unknown"
      ∧ e.drop_candidate = recommendDropForActivation p bench unt := by
  have hmove : ilMoveCond p = false := by
    have hil : IL_SLOTS.contains (p.current_slot.getD "BN") = true := by
      have := hact
      unfold ilActivateCond at this
      exact (Bool.and_eq_true _ _ ▸ this).1
    unfold ilMoveCond
    rw [hil]
    simp
  refine ⟨{ name := p.name.getD "Unknown", current_slot := p.current_slot.getD "BN",
            returning_positions := p.eligible_positions, returning_ht_score := p.ht_score,
            drop_candidate := recommendDropForActivation p bench unt }, ?_, rfl, rfl⟩
  show _ ∈ ilActivates roster (some bench) (some unt)
  refine List.mem_filterMap.mpr ⟨p, hp, ?_⟩
  simp [hmove, hact]

theorem checkIlFlags_move_length_le (roster : List ILP)
    (bench : Option (List DropP)) (unt : Option (List String)) :
    ((checkIlFlags roster bench unt).should_move_to_il).length ≤ ilAvailable roster := by
  simp only [checkIlFlags]
  split
  · simp
  · rename_i hle
    omega

/-! ## Claim C6 -/

/-- C6: for every input, the number of move-to-IL suggestions returned by
`check_il_flags` is at most `max(0, IL capacity − occupied IL slots)`
(`ilAvailable`); in the scenario with capacity 3, 2 occupied IL slots and 4
detected candidates, exactly 1 suggestion is returned (so 3 of the 4 are
skipped). -/
theorem il_capacity_cap :
    (∀ (roster : List ILP) (bench : Option (List DropP)) (unt : Option (List String)),
      ((checkIlFlags roster bench unt).should_move_to_il).length ≤ ilAvailable roster)
    ∧ ilOccupied rosterIlScenario = 2
    ∧ (ilMoves rosterIlScenario).length = 4
    ∧ ((checkIlFlags rosterIlScenario none none).should_move_to_il).length = 1 :=
  ⟨checkIlFlags_move_length_le, by decide, by decide, by decide⟩

/-! ## Claim C7 -/

/-- C7: in both scanners every free-agent name appears at most once in the
output; each returned opportunity is one of the raw opportunities and has
the maximal `rank_improvement` among raw opportunities of the same agent;
and the final list is sorted descending by `rank_improvement`. -/
theorem waiver_dedupe_and_sorting :
    ∀ (fas : List FA) (active : List ScanActiveP) (bench : List ScanBenchP)
      (unt : List String),
      (((scanActiveUpgrades fas active unt).map fun o => o.fa_name).Nodup
        ∧ (∀ o ∈ scanActiveUpgrades fas active unt,
            o ∈ rawActiveOpps fas active unt
            ∧ ∀ r ∈ rawActiveOpps fas active unt,
                r.fa_name = o.fa_name → r.rank_improvement ≤ o.rank_improvement)
        ∧ (scanActiveUpgrades fas active unt).Pairwise
            fun a b => b.rank_improvement ≤ a.rank_improvement)
      ∧ (((scanBenchUpgrades fas bench unt).map fun o => o.fa_name).Nodup
        ∧ (∀ o ∈ scanBenchUpgrades fas bench unt,
            o ∈ rawBenchOpps fas bench unt
            ∧ ∀ r ∈ rawBenchOpps fas bench unt,
                r.fa_name = o.fa_name → r.rank_improvement ≤ o.rank_improvement)
        ∧ (scanBenchUpgrades fas bench unt).Pairwise
            fun a b => b.rank_improvement ≤ a.rank_improvement) := by
  intro fas active bench unt
  constructor
  · have h := sortDedupe_spec (fun o : ActOpp => o.fa_name)
      (fun o => o.rank_improvement) (rawActiveOpps fas active unt)
    simpa only [scanActiveUpgrades] using h
  · have h := sortDedupe_spec (fun o : BenchOpp => o.fa_name)
      (fun o => o.rank_improvement) (rawBenchOpps fas bench unt)
    simpa only [scanBenchUpgrades] using h

/-! ## Claim C8 -/

/-- C8 counterexample: a free agent whose BM score beats the incumbent's by
0.001 is reported, but its `rank_improvement` field — `round(imp, 2)` —
equals 0, which is not strictly positive.  The claim "every reported
opportunity has a strictly positive improvement value" is therefore false
as stated. -/
theorem waiver_positive_improvement_cex :
    (scanActiveUpgrades [tinyEdgeFA] [scoredIncumbent] []).map
      (fun o => o.rank_improvement) = [0] := by decide

/-- C8 amended: a free agent with a present BM score ≤ 0 is never reported
over an incumbent without a BM score (the pair produces no opportunity, in
both scanners); and every reported opportunity has a *non-negative*
`rank_improvement` — the pre-rounding improvement is strictly positive, but
rounding to two decimals can bring the reported value down to 0. -/
theorem waiver_positive_improvement_amended :
    (∀ (unt : List String) (fa : FA) (ap : ScanActiveP) (b : ℚ),
        fa.bm_score = some b → b ≤ 0 → ap.bm_score = none →
        mkActiveOpp unt fa ap = none)
    ∧ (∀ (unt : List String) (fa : FA) (bp : ScanBenchP) (b : ℚ),
        fa.bm_score = some b → b ≤ 0 → bp.bm_score = none →
        mkBenchOpp unt fa bp = none)
    ∧ (∀ (fas : List FA) (active : List ScanActiveP) (unt : List String),
        ∀ o ∈ scanActiveUpgrades fas active unt, 0 ≤ o.rank_improvement)
    ∧ (∀ (fas : List FA) (bench : List ScanBenchP) (unt : List String),
        ∀ o ∈ scanBenchUpgrades fas bench unt, 0 ≤ o.rank_improvement) := by
  refine ⟨?_, ?_, ?_, ?_⟩
  · intro unt fa ap b h1 h2 h3
    exact mkActiveOpp_neg_bm_skip h1 h2 h3
  · intro unt fa bp b h1 h2 h3
    exact mkBenchOpp_neg_bm_skip h1 h2 h3
  · intro fas active unt o ho
    have h := (sortDedupe_spec (fun o : ActOpp => o.fa_name)
      (fun o => o.rank_improvement) (rawActiveOpps fas active unt)).2.1 o
      (by simpa only [scanActiveUpgrades] using ho)
    rcases rawActiveOpps_elim h.1 with ⟨fa, _, ap, _, hmk⟩
    exact (mkActiveOpp_some_props hmk).1
  · intro fas bench unt o ho
    have h := (sortDedupe_spec (fun o : BenchOpp => o.fa_name)
      (fun o => o.rank_improvement) (rawBenchOpps fas bench unt)).2.1 o
      (by simpa only [scanBenchUpgrades] using ho)
    rcases rawBenchOpps_elim h.1 with ⟨fa, _, bp, _, hmk⟩
    exact (mkBenchOpp_some_props hmk).1

/-- C8 witness: the amended claim instantiated — the negative-BM pair is
skipped in both scanners, and the reported tiny-edge opportunity has a
non-negative improvement. -/
theorem waiver_positive_improvement_witness :
    (negBmFA.bm_score = some (-1) ∧ (-1 : ℚ) ≤ 0
      ∧ unscoredIncumbent.bm_score = none
      ∧ mkActiveOpp [] negBmFA unscoredIncumbent = none)
    ∧ (unscoredBenchIncumbent.bm_score = none
      ∧ mkBenchOpp [] negBmFA unscoredBenchIncumbent = none)
    ∧ ((⟨"TinyEdge", ["PG"], 50, 0, 0, "Scored", 40, "PG", 0, false,
          some (2001 / 1000)⟩ : ActOpp) ∈
        scanActiveUpgrades [tinyEdgeFA] [scoredIncumbent] []
      ∧ (0 : ℚ) ≤ (0 : ℚ))
    ∧ ((⟨"BenchFA", ["PG"], 20, 0, 0, "BenchUnscored", 100, "G", 80, false,
          none, none, none⟩ : BenchOpp) ∈
        scanBenchUpgrades [benchScanFA] [unscoredBenchIncumbent] []
      ∧ (0 : ℚ) ≤ (80 : ℚ)) :=
  ⟨⟨rfl, by norm_num, rfl,
      waiver_positive_improvement_amended.1 [] negBmFA unscoredIncumbent (-1) rfl
        (by norm_num) rfl⟩,
    ⟨rfl,
      waiver_positive_improvement_amended.2.1 [] negBmFA unscoredBenchIncumbent (-1) rfl
        (by norm_num) rfl⟩,
    ⟨by decide,
      waiver_positive_improvement_amended.2.2.1 [tinyEdgeFA] [scoredIncumbent] []
        ⟨"TinyEdge", ["PG"], 50, 0, 0, "Scored", 40, "PG", 0, false,
          some (2001 / 1000)⟩ (by decide)⟩,
    ⟨by decide,
      waiver_positive_improvement_amended.2.2.2 [benchScanFA] [unscoredBenchIncumbent] []
        ⟨"BenchFA", ["PG"], 20, 0, 0, "BenchUnscored", 100, "G", 80, false,
          none, none, none⟩ (by decide)⟩⟩

/-! ## Claim C3 -/

/-- C3 counterexample: the waiver scanner does report an opportunity whose
`replace_player_name` is in the untouchables set (it keeps untouchable
incumbents in the comparison pool and only tags them), so "drop
recommendations never name an untouchable" is false for the scanners. -/
theorem untouchable_protection_cex :
    ∃ o ∈ scanActiveUpgrades [hotFreeAgent] [untouchableIncumbent] ["Franchise"],
      o.replace_player_name ∈ ["Franchise"] := by decide

/-- C3 amended: the IL Advisor's drop candidate is never untouchable, while
the Waiver Scanner may name an untouchable incumbent but always tags the
opportunity with `is_untouchable_replace` exactly when the named player is
untouchable. -/
theorem untouchable_protection_amended :
    (∀ (rp : ILP) (bench : List DropP) (unt : List String) (d : DropInfo),
        recommendDropForActivation rp bench unt = some d → d.name ∉ unt)
    ∧ (∀ (fas : List FA) (active : List ScanActiveP) (unt : List String),
        ∀ o ∈ scanActiveUpgrades fas active unt,
          (o.is_untouchable_replace = true ↔ o.replace_player_name ∈ unt))
    ∧ (∀ (fas : List FA) (bench : List ScanBenchP) (unt : List String),
        ∀ o ∈ scanBenchUpgrades fas bench unt,
          (o.is_untouchable_replace = true ↔ o.replace_player_name ∈ unt)) := by
  refine ⟨?_, ?_, ?_⟩
  · intro rp bench unt d h
    exact recommendDrop_not_untouchable h
  · intro fas active unt o ho
    have h := (sortDedupe_spec (fun o : ActOpp => o.fa_name)
      (fun o => o.rank_improvement) (rawActiveOpps fas active unt)).2.1 o
      (by simpa only [scanActiveUpgrades] using ho)
    rcases rawActiveOpps_elim h.1 with ⟨fa, _, ap, _, hmk⟩
    rw [(mkActiveOpp_some_props hmk).2]
    simp
  · intro fas bench unt o ho
    have h := (sortDedupe_spec (fun o : BenchOpp => o.fa_name)
      (fun o => o.rank_improvement) (rawBenchOpps fas bench unt)).2.1 o
      (by simpa only [scanBenchUpgrades] using ho)
    rcases rawBenchOpps_elim h.1 with ⟨fa, _, bp, _, hmk⟩
    rw [(mkBenchOpp_some_props hmk).2]
    simp

/-- C3 witness: the amended claim instantiated — a concrete IL-advisor drop
recommendation avoiding the untouchable, and concrete tagged scanner
opportunities. -/
theorem untouchable_protection_witness :
    (recommendDropForActivation returningIlPlayer benchOneDroppable ["Keep1"] =
        some ⟨"Fringe", ["SF"], some 1, 0⟩
      ∧ "Fringe" ∉ ["Keep1"])
    ∧ ((⟨"HotFA", ["PG"], 10, 0, 0, "Franchise", 80, "PG", 70, true, none⟩ : ActOpp) ∈
        scanActiveUpgrades [hotFreeAgent] [untouchableIncumbent] ["Franchise"]
      ∧ ((true = true) ↔ ("Franchise" : String) ∈ ["Franchise"]))
    ∧ ((⟨"BenchFA", ["PG"], 20, 0, 0, "BenchUnscored", 100, "G", 80, false,
          none, none, none⟩ : BenchOpp) ∈
        scanBenchUpgrades [benchScanFA] [unscoredBenchIncumbent] []
      ∧ ((false = true) ↔ ("BenchUnscored" : String) ∈ ([] : List String))) :=
  ⟨⟨by decide,
      untouchable_protection_amended.1 returningIlPlayer benchOneDroppable ["Keep1"]
        ⟨"Fringe", ["SF"], some 1, 0⟩ (by decide)⟩,
    ⟨by decide,
      untouchable_protection_amended.2.1 [hotFreeAgent] [untouchableIncumbent]
        ["Franchise"]
        ⟨"HotFA", ["PG"], 10, 0, 0, "Franchise", 80, "PG", 70, true, none⟩
        (by decide)⟩,
    ⟨by decide,
      untouchable_protection_amended.2.2 [benchScanFA] [unscoredBenchIncumbent] []
        ⟨"BenchFA", ["PG"], 20, 0, 0, "BenchUnscored", 100, "G", 80, false,
          none, none, none⟩ (by decide)⟩⟩

/-! ## Claim C9 -/

/-- C9 counterexample: on the bench of one centre-eligible and one
guard-eligible player, the description's parts are produced in the source's
`G, F, C` iteration order, not in the claimed `C, G, F` order. -/
theorem bench_shape_scenario_cex :
    benchShapeParts (benchShapeCounts benchCentreGuard) ≠
      ["C: 1/1 (OK)", "G: 1/1 (OK)", "F: 0/1 (NEED)"] := by decide

/-- C9 amended: for the bench of one centre-eligible and one guard-eligible
player, `check_bench_shape` returns counts G=1, F=0, C=1, target-met false,
and the description "G: 1/1 (OK) | F: 0/1 (NEED) | C: 1/1 (OK)" (parts in
the source's G, F, C order); classification gives centre priority, then
forward-type positions, then guard-type. -/
theorem bench_shape_scenario_amended :
    checkBenchShape benchCentreGuard =
      (⟨1, 0, 1⟩, false, "G: 1/1 (OK) | F: 0/1 (NEED) | C: 1/1 (OK)")
    ∧ (∀ ps : List String, ps.contains "C" = true →
        classifyBenchPlayer ps = some "C")
    ∧ (∀ ps : List String, ps.contains "C" = false →
        (["SF", "PF", "F"].any fun q => ps.contains q) = true →
        classifyBenchPlayer ps = some "F")
    ∧ (∀ ps : List String, ps.contains "C" = false →
        (["SF", "PF", "F"].any fun q => ps.contains q) = false →
        (["PG", "SG", "G"].any fun q => ps.contains q) = true →
        classifyBenchPlayer ps = some "G") := by
  refine ⟨by decide, ?_, ?_, ?_⟩
  · intro ps h1
    simp only [classifyBenchPlayer]
    rw [if_pos h1]
  · intro ps h1 h2
    simp only [classifyBenchPlayer]
    rw [if_neg (by simpa using h1), if_pos h2]
  · intro ps h1 h2 h3
    simp only [classifyBenchPlayer]
    rw [if_neg (by simpa using h1), if_neg (by simpa using h2), if_pos h3]

/-- C9 witness: the amended classification rules instantiated at concrete
position lists. -/
theorem bench_shape_scenario_witness :
    ((["PG", "C"] : List String).contains "C" = true
      ∧ classifyBenchPlayer ["PG", "C"] = some "C")
    ∧ ((["SF"] : List String).contains "C" = false
      ∧ (["SF", "PF", "F"].any fun q => (["SF"] : List String).contains q) = true
      ∧ classifyBenchPlayer ["SF"] = some "F")
    ∧ ((["PG"] : List String).contains "C" = false
      ∧ (["SF", "PF", "F"].any fun q => (["PG"] : List String).contains q) = false
      ∧ (["PG", "SG", "G"].any fun q => (["PG"] : List String).contains q) = true
      ∧ classifyBenchPlayer ["PG"] = some "G") :=
  ⟨⟨by decide, bench_shape_scenario_amended.2.1 ["PG", "C"] (by decide)⟩,
    ⟨by decide, by decide,
      bench_shape_scenario_amended.2.2.1 ["SF"] (by decide) (by decide)⟩,
    ⟨by decide, by decide, by decide,
      bench_shape_scenario_amended.2.2.2 ["PG"] (by decide) (by decide) (by decide)⟩⟩

/-! ## Claim C10 -/

/-- C10: on a non-empty bench whose every player is untouchable,
`recommend_drop_for_activation` returns `None` (no candidate is invented),
and `check_il_flags` still returns the activate-from-IL entry for each
IL-slotted healthy player, with `drop_candidate = None` and no error. -/
theorem all_untouchable_bench_no_drop :
    ∀ (bench : List DropP) (unt : List String) (rp : ILP) (roster : List ILP),
      bench ≠ [] →
      (∀ p ∈ bench, p.name.getD "Unknown" ∈ unt) →
      recommendDropForActivation rp bench unt = none
      ∧ ∀ p ∈ roster, ilActivateCond p = true →
          ∃ e ∈ (checkIlFlags roster (some bench) (some unt)).should_activate_from_il,
            e.name = p.name.getD "Unknown" ∧ e.drop_candidate = none := by
  intro bench unt rp roster _ hall
  refine ⟨recommendDrop_all_untouchable hall, ?_⟩
  intro p hp hact
  rcases checkIlFlags_activate_entry hp hact with ⟨e, he, hname, hdrop⟩
  exact ⟨e, he, hname, by rw [hdrop]; exact recommendDrop_all_untouchable hall⟩

/-- C10 witness: instantiated at an all-untouchable bench and a roster of
one healthy IL player. -/
theorem all_untouchable_bench_no_drop_witness :
    benchAllUntouchable ≠ []
    ∧ recommendDropForActivation returningIlPlayer benchAllUntouchable
        ["Keep1", "Keep2"] = none
    ∧ ∃ e ∈ (checkIlFlags [returningIlPlayer] (some benchAllUntouchable)
          (some ["Keep1", "Keep2"])).should_activate_from_il,
        e.name = "Returning" ∧ e.drop_candidate = none := by
  have h := all_untouchable_bench_no_drop benchAllUntouchable ["Keep1", "Keep2"]
    returningIlPlayer [returningIlPlayer] (by decide) (by decide)
  refine ⟨by decide, h.1, ?_⟩
  have h2 := h.2 returningIlPlayer (by decide) (by decide)
  simpa using h2

/-! ## Claim C4 -/

/-- C4: whenever the game-day swap pass of `build_lineup` picks a
displacement target for a bench candidate, the chosen active index lies in
the first non-empty `SWAP_PRIORITY` tier of eligible occupants without a
game today, and within that tier the occupant is the worst-ranked one by
the selection key (`_rank_sort_key`, default 30-day window) applied to the
active entries. -/
theorem swap_displaces_worst_in_first_tier :
    ∀ (active : List Entry) (bp : Player) (unt : List String) (i : Nat),
      findSwapTarget active bp unt = some i → SwapChoiceSpec active bp unt i := by
  intro active bp unt i h
  exact findSwapGo_some_spec SWAP_PRIORITY i h

/-- C4 witness: the concrete stable-plus-flex lineup — the bench player
displaces index 1 (the flex UTIL occupant) and that choice satisfies the
selection specification. -/
theorem swap_displaces_worst_in_first_tier_witness :
    findSwapTarget activeStableAndFlex benchHotPlayer [] = some 1
    ∧ SwapChoiceSpec activeStableAndFlex benchHotPlayer [] 1 :=
  ⟨by decide, swap_displaces_worst_in_first_tier activeStableAndFlex benchHotPlayer []
      1 (by decide)⟩

/-! ## Claim C5 -/

/-- C5: whenever some flex-tier occupant without a game today is eligible to
be displaced by the bench player (its slot being one of the flex tiers
UTIL/G/F/C), the swap pass does pick a target, and the displaced occupant is
a flex-slot one — a stable-slot occupant is never displaced while a flex
candidate exists.  In particular, with one eligible stable-slot and one
eligible flex-slot occupant both without games, the flex one is displaced. -/
theorem swap_stability_preference :
    ∀ (active : List Entry) (bp : Player) (unt : List String) (i : Nat),
      i ∈ tierCandidates active bp ((active.getD i dfltEntry).slot, "flex") →
      (active.getD i dfltEntry).slot ∈ ["UTIL", "G", "F", "C"] →
      ∃ j, findSwapTarget active bp unt = some j
        ∧ (active.getD j dfltEntry).slot_type = "flex" := by
  intro active bp unt i hi hslot
  have hlen : SWAP_PRIORITY.length = 9 := rfl
  -- the flex tier of `i`'s slot sits at one of the first four positions
  have hkf : ∃ kf, kf ≤ 3 ∧
      SWAP_PRIORITY.getD kf ("", "") = ((active.getD i dfltEntry).slot, "flex") := by
    simp only [List.mem_cons, List.not_mem_nil, or_false] at hslot
    rcases hslot with h | h | h | h
    · exact ⟨0, by omega, by rw [h]; rfl⟩
    · exact ⟨1, by omega, by rw [h]; rfl⟩
    · exact ⟨2, by omega, by rw [h]; rfl⟩
    · exact ⟨3, by omega, by rw [h]; rfl⟩
  rcases hkf with ⟨kf, hkf3, htf⟩
  cases hft : findSwapTarget active bp unt with
  | none =>
      exfalso
      have hmem : SWAP_PRIORITY.getD kf ("", "") ∈ SWAP_PRIORITY :=
        getD_mem_of_lt _ kf _ (by omega)
      have hempty := findSwapGo_none_spec SWAP_PRIORITY hft _ hmem
      rw [htf] at hempty
      rw [hempty] at hi
      exact List.not_mem_nil i hi
  | some j =>
      rcases findSwapGo_some_spec SWAP_PRIORITY j hft with ⟨k, hk, hpre, hjmem, _⟩
      have hkkf : k ≤ kf := by
        by_contra hgt
        have hempty := hpre kf (by omega)
        rw [htf] at hempty
        rw [hempty] at hi
        exact List.not_mem_nil i hi
      have hk3 : k ≤ 3 := le_trans hkkf hkf3
      have hflex : (SWAP_PRIORITY.getD k ("", "")).2 = "flex" := by
        interval_cases k <;> rfl
      rcases mem_tierCandidates.mp hjmem with ⟨_, _, htype, _, _⟩
      exact ⟨j, rfl, by rw [htype, hflex]⟩

/-- C5 witness: with one eligible stable-slot and one eligible flex-slot
occupant, both without games, the flex occupant (index 1) is the one
displaced. -/
theorem swap_stability_preference_witness :
    (1 ∈ tierCandidates activeStableAndFlex benchHotPlayer
        ((activeStableAndFlex.getD 1 dfltEntry).slot, "flex")
      ∧ (activeStableAndFlex.getD 1 dfltEntry).slot ∈ ["UTIL", "G", "F", "C"])
    ∧ ∃ j, findSwapTarget activeStableAndFlex benchHotPlayer [] = some j
        ∧ (activeStableAndFlex.getD j dfltEntry).slot_type = "flex" :=
  ⟨⟨by decide, by decide⟩,
    swap_stability_preference activeStableAndFlex benchHotPlayer [] 1
      (by decide) (by decide)⟩

/-! ## Fill-phase and swap-phase invariants -/

theorem bestPlayerForSlot_mem {slot : String} {cands : List Player}
    {unt : List String} {use14 : Bool} {p : Player}
    (h : bestPlayerForSlot slot cands unt use14 = some p) :
    p ∈ cands ∧ playerEligibleForSlot p slot = true := by
  unfold bestPlayerForSlot at h
  have hmem : p ∈ sortByKey (fun q => rankSortKey q unt use14)
      (cands.filter fun q => playerEligibleForSlot q slot) :=
    List.mem_of_mem_head? h
  have hfil := (sortByKey_perm _ _).subset hmem
  exact ⟨(List.mem_filter.mp hfil).1, (List.mem_filter.mp hfil).2⟩

theorem fillOne_names (unt : List String) (use14 isStable : Bool)
    (st : AllocState) (slot : String) :
    ((((fillOne unt use14 isStable st slot).active.map Entry.name : List String) : Multiset String)
      + (((fillOne unt use14 isStable st slot).unassigned.map Player.name : List String) : Multiset String))
    = (((st.active.map Entry.name : List String) : Multiset String)
      + ((st.unassigned.map Player.name : List String) : Multiset String)) := by
  unfold fillOne
  cases h : bestPlayerForSlot slot st.unassigned unt use14 with
  | none => rfl
  | some chosen =>
      have hmem := (bestPlayerForSlot_mem h).1
      have hU : ((st.unassigned.map Player.name : List String) : Multiset String)
          = chosen.name ::ₘ ↑((st.unassigned.erase chosen).map Player.name) := by
        have := Multiset.coe_eq_coe.mpr ((List.perm_cons_erase hmem).map Player.name)
        simpa using this
      rw [hU]
      simp only [List.map_append, List.map_cons, List.map_nil]
      show ((st.active.map Entry.name ++ [(mkFillEntry unt chosen slot isStable).name]
          ++ (st.unassigned.erase chosen).map Player.name : List String) : Multiset String)
        = ((st.active.map Entry.name
          ++ ((mkFillEntry unt chosen slot isStable).name
            :: (st.unassigned.erase chosen).map Player.name) : List String) : Multiset String)
      exact congrArg (fun l : List String => (l : Multiset String))
        (List.append_assoc _ _ _)

theorem fillFold_names (unt : List String) (use14 isStable : Bool) :
    ∀ (slots : List String) (st : AllocState),
      ((((slots.foldl (fillOne unt use14 isStable) st).active.map Entry.name : List String) : Multiset String)
        + (((slots.foldl (fillOne unt use14 isStable) st).unassigned.map Player.name : List String) : Multiset String))
      = (((st.active.map Entry.name : List String) : Multiset String)
        + ((st.unassigned.map Player.name : List String) : Multiset String)) := by
  intro slots
  induction slots with
  | nil => intro st; rfl
  | cons s rest ih =>
      intro st
      simp only [List.foldl_cons]
      rw [ih (fillOne unt use14 isStable st s), fillOne_names]

theorem swapStep_names (unt : List String) (st : AllocState) (bp : Player)
    (hbp : bp ∈ st.unassigned) :
    ((((swapStep unt st bp).active.map Entry.name : List String) : Multiset String)
      + (((swapStep unt st bp).unassigned.map Player.name : List String) : Multiset String))
    = (((st.active.map Entry.name : List String) : Multiset String)
      + ((st.unassigned.map Player.name : List String) : Multiset String)) := by
  unfold swapStep
  cases h : findSwapTarget st.active bp unt with
  | none => rfl
  | some i =>
      rcases findSwapGo_some_spec SWAP_PRIORITY i h with ⟨k, _, _, hmem, _⟩
      have hlt : i < st.active.length := (mem_tierCandidates.mp hmem).1
      have hA : ((st.active.map Entry.name : List String) : Multiset String)
          = (st.active.getD i dfltEntry).name ::ₘ
            ↑((st.active.eraseIdx i).map Entry.name) := by
        have := Multiset.coe_eq_coe.mpr
          ((perm_getD_cons_eraseIdx dfltEntry st.active i hlt).map Entry.name)
        simpa using this
      have hA' : (((st.active.set i (mkSwapEntry unt bp (st.active.getD i dfltEntry))).map
            Entry.name : List String) : Multiset String)
          = bp.name ::ₘ ↑((st.active.eraseIdx i).map Entry.name) := by
        have := Multiset.coe_eq_coe.mpr
          ((set_perm_cons_eraseIdx st.active i
            (mkSwapEntry unt bp (st.active.getD i dfltEntry)) hlt).map Entry.name)
        simpa [mkSwapEntry] using this
      have hU : ((st.unassigned.map Player.name : List String) : Multiset String)
          = bp.name ::ₘ ↑((st.unassigned.erase bp).map Player.name) := by
        have := Multiset.coe_eq_coe.mpr ((List.perm_cons_erase hbp).map Player.name)
        simpa using this
      have hU' : (((st.unassigned.erase bp
            ++ [reconstructPlayer (st.active.getD i dfltEntry)]).map
            Player.name : List String) : Multiset String)
          = (((st.unassigned.erase bp).map Player.name : List String) : Multiset String)
            + {(st.active.getD i dfltEntry).name} := by
        rw [List.map_append]
        rfl
      rw [hA', hU', hA, hU]
      simp only [← Multiset.singleton_add]
      abel

theorem swapFold_names (unt : List String) :
    ∀ (rest : List Player) (st : AllocState),
      ((rest : Multiset Player) ≤ (st.unassigned : Multiset Player)) →
      ((((rest.foldl (swapStep unt) st).active.map Entry.name : List String) : Multiset String)
        + (((rest.foldl (swapStep unt) st).unassigned.map Player.name : List String) : Multiset String))
      = (((st.active.map Entry.name : List String) : Multiset String)
        + ((st.unassigned.map Player.name : List String) : Multiset String)) := by
  intro rest
  induction rest with
  | nil => intro st _; rfl
  | cons bp rest' ih =>
      intro st hle
      have hle' := hle
      rw [← Multiset.cons_coe] at hle'
      have hbp : bp ∈ st.unassigned := by
        have : bp ∈ (st.unassigned : Multiset Player) :=
          Multiset.mem_of_le hle' (Multiset.mem_cons_self _ _)
        simpa using this
      have hcount := Multiset.le_iff_count.mp hle'
      simp only [List.foldl_cons]
      have hrest : ((rest' : Multiset Player) ≤
          ((swapStep unt st bp).unassigned : Multiset Player)) := by
        unfold swapStep
        cases h : findSwapTarget st.active bp unt with
        | none =>
            show (rest' : Multiset Player) ≤ (st.unassigned : Multiset Player)
            exact le_trans (Multiset.le_cons_self _ _) hle'
        | some i =>
            show (rest' : Multiset Player) ≤
              ((st.unassigned.erase bp
                ++ [reconstructPlayer (st.active.getD i dfltEntry)] : List Player) :
                  Multiset Player)
            have hco : ((st.unassigned.erase bp
                ++ [reconstructPlayer (st.active.getD i dfltEntry)] : List Player) :
                  Multiset Player)
                = ((st.unassigned : Multiset Player).erase bp)
                  + {reconstructPlayer (st.active.getD i dfltEntry)} := by
              rw [show ((st.unassigned.erase bp
                  ++ [reconstructPlayer (st.active.getD i dfltEntry)] : List Player) :
                    Multiset Player)
                  = ((st.unassigned.erase bp : List Player) : Multiset Player)
                    + {reconstructPlayer (st.active.getD i dfltEntry)} from rfl]
              rw [Multiset.coe_erase]
            rw [hco]
            refine Multiset.le_iff_count.mpr fun a => ?_
            rw [Multiset.count_add]
            have h1 := hcount a
            rw [Multiset.count_cons] at h1
            by_cases hab : a = bp
            · subst hab
              rw [Multiset.count_erase_self]
              rw [if_pos rfl] at h1
              omega
            · rw [Multiset.count_erase_of_ne hab]
              rw [if_neg hab] at h1
              omega
      rw [ih (swapStep unt st bp) hrest, swapStep_names unt st bp hbp]

theorem fillOne_elig (unt : List String) (use14 isStable : Bool)
    (st : AllocState) (slot : String)
    (h : ∀ e ∈ st.active, positionsMeet e.positions (SLOT_ELIGIBILITY e.slot) = true) :
    ∀ e ∈ (fillOne unt use14 isStable st slot).active,
      positionsMeet e.positions (SLOT_ELIGIBILITY e.slot) = true := by
  unfold fillOne
  cases hb : bestPlayerForSlot slot st.unassigned unt use14 with
  | none => exact h
  | some chosen =>
      intro e he
      rcases List.mem_append.mp he with he | he
      · exact h e he
      · simp only [List.mem_singleton] at he
        subst he
        exact (bestPlayerForSlot_mem hb).2

theorem swapStep_elig (unt : List String) (st : AllocState) (bp : Player)
    (h : ∀ e ∈ st.active, positionsMeet e.positions (SLOT_ELIGIBILITY e.slot) = true) :
    ∀ e ∈ (swapStep unt st bp).active,
      positionsMeet e.positions (SLOT_ELIGIBILITY e.slot) = true := by
  unfold swapStep
  cases hf : findSwapTarget st.active bp unt with
  | none => exact h
  | some i =>
      intro e he
      rcases List.mem_or_eq_of_mem_set he with he | he
      · exact h e he
      · subst he
        rcases findSwapGo_some_spec SWAP_PRIORITY i hf with ⟨k, _, _, hmem, _⟩
        rcases mem_tierCandidates.mp hmem with ⟨hlt, hslot, _, _, helig⟩
        show positionsMeet bp.positions
          (SLOT_ELIGIBILITY (st.active.getD i dfltEntry).slot) = true
        rw [hslot]
        exact helig

theorem fillOne_bn (unt : List String) (use14 isStable : Bool)
    (st : AllocState) (slot : String)
    (h : (∀ e ∈ st.active, positionsMeet e.positions (SLOT_ELIGIBILITY "BN") = true)
      ∧ (∀ p ∈ st.unassigned, positionsMeet p.positions (SLOT_ELIGIBILITY "BN") = true)) :
    (∀ e ∈ (fillOne unt use14 isStable st slot).active,
      positionsMeet e.positions (SLOT_ELIGIBILITY "BN") = true)
    ∧ (∀ p ∈ (fillOne unt use14 isStable st slot).unassigned,
      positionsMeet p.positions (SLOT_ELIGIBILITY "BN") = true) := by
  unfold fillOne
  cases hb : bestPlayerForSlot slot st.unassigned unt use14 with
  | none => exact h
  | some chosen =>
      constructor
      · intro e he
        rcases List.mem_append.mp he with he | he
        · exact h.1 e he
        · simp only [List.mem_singleton] at he
          subst he
          exact h.2 chosen (bestPlayerForSlot_mem hb).1
      · intro p hp
        exact h.2 p (List.erase_subset _ _ hp)

theorem swapStep_bn (unt : List String) (st : AllocState) (bp : Player)
    (hbp : positionsMeet bp.positions (SLOT_ELIGIBILITY "BN") = true)
    (h : (∀ e ∈ st.active, positionsMeet e.positions (SLOT_ELIGIBILITY "BN") = true)
      ∧ (∀ p ∈ st.unassigned, positionsMeet p.positions (SLOT_ELIGIBILITY "BN") = true)) :
    (∀ e ∈ (swapStep unt st bp).active,
      positionsMeet e.positions (SLOT_ELIGIBILITY "BN") = true)
    ∧ (∀ p ∈ (swapStep unt st bp).unassigned,
      positionsMeet p.positions (SLOT_ELIGIBILITY "BN") = true) := by
  unfold swapStep
  cases hf : findSwapTarget st.active bp unt with
  | none => exact h
  | some i =>
      rcases findSwapGo_some_spec SWAP_PRIORITY i hf with ⟨k, _, _, hmem, _⟩
      have hlt : i < st.active.length := (mem_tierCandidates.mp hmem).1
      constructor
      · intro e he
        rcases List.mem_or_eq_of_mem_set he with he | he
        · exact h.1 e he
        · subst he
          exact hbp
      · intro p hp
        rcases List.mem_append.mp hp with hp | hp
        · exact h.2 p (List.erase_subset _ _ hp)
        · simp only [List.mem_singleton] at hp
          subst hp
          exact h.1 _ (getD_mem_of_lt st.active i dfltEntry hlt)

theorem fillFold_elig (unt : List String) (use14 isStable : Bool) :
    ∀ (slots : List String) (st : AllocState),
      (∀ e ∈ st.active, positionsMeet e.positions (SLOT_ELIGIBILITY e.slot) = true) →
      ∀ e ∈ (slots.foldl (fillOne unt use14 isStable) st).active,
        positionsMeet e.positions (SLOT_ELIGIBILITY e.slot) = true := by
  intro slots
  induction slots with
  | nil => intro st h; exact h
  | cons s rest ih =>
      intro st h
      exact ih _ (fillOne_elig unt use14 isStable st s h)

theorem fillFold_bn (unt : List String) (use14 isStable : Bool) :
    ∀ (slots : List String) (st : AllocState),
      ((∀ e ∈ st.active, positionsMeet e.positions (SLOT_ELIGIBILITY "BN") = true)
        ∧ (∀ p ∈ st.unassigned, positionsMeet p.positions (SLOT_ELIGIBILITY "BN") = true)) →
      ((∀ e ∈ (slots.foldl (fillOne unt use14 isStable) st).active,
          positionsMeet e.positions (SLOT_ELIGIBILITY "BN") = true)
        ∧ (∀ p ∈ (slots.foldl (fillOne unt use14 isStable) st).unassigned,
          positionsMeet p.positions (SLOT_ELIGIBILITY "BN") = true)) := by
  intro slots
  induction slots with
  | nil => intro st h; exact h
  | cons s rest ih =>
      intro st h
      exact ih _ (fillOne_bn unt use14 isStable st s h)

theorem swapFold_elig (unt : List String) :
    ∀ (rest : List Player) (st : AllocState),
      (∀ e ∈ st.active, positionsMeet e.positions (SLOT_ELIGIBILITY e.slot) = true) →
      ∀ e ∈ (rest.foldl (swapStep unt) st).active,
        positionsMeet e.positions (SLOT_ELIGIBILITY e.slot) = true := by
  intro rest
  induction rest with
  | nil => intro st h; exact h
  | cons bp rest' ih =>
      intro st h
      exact ih _ (swapStep_elig unt st bp h)

theorem swapFold_bn (unt : List String) :
    ∀ (rest : List Player) (st : AllocState),
      (∀ bp ∈ rest, positionsMeet bp.positions (SLOT_ELIGIBILITY "BN") = true) →
      ((∀ e ∈ st.active, positionsMeet e.positions (SLOT_ELIGIBILITY "BN") = true)
        ∧ (∀ p ∈ st.unassigned, positionsMeet p.positions (SLOT_ELIGIBILITY "BN") = true)) →
      ((∀ e ∈ (rest.foldl (swapStep unt) st).active,
          positionsMeet e.positions (SLOT_ELIGIBILITY "BN") = true)
        ∧ (∀ p ∈ (rest.foldl (swapStep unt) st).unassigned,
          positionsMeet p.positions (SLOT_ELIGIBILITY "BN") = true)) := by
  intro rest
  induction rest with
  | nil => intro st _ h; exact h
  | cons bp rest' ih =>
      intro st hrest h
      exact ih _ (fun q hq => hrest q (List.mem_cons_of_mem _ hq))
        (swapStep_bn unt st bp (hrest bp (List.mem_cons_self _ _)) h)

/-! ## Phase assembly -/

theorem benchWithGame_le (u : List Player) (unt : List String) :
    ((benchWithGame u unt : List Player) : Multiset Player) ≤ (u : Multiset Player) := by
  have h1 : (benchWithGame u unt).Perm
      (u.filter fun p => p.has_game_today && !statusHardOut p) := sortByKey_perm _ _
  rw [Multiset.coe_eq_coe.mpr h1, Multiset.coe_le]
  exact (List.filter_sublist _).subperm

theorem benchWithGame_subset {u : List Player} {unt : List String} :
    ∀ p ∈ benchWithGame u unt, p ∈ u := by
  intro p hp
  have h1 : p ∈ u.filter fun q => q.has_game_today && !statusHardOut q :=
    (sortByKey_perm _ _).subset hp
  exact List.mem_of_mem_filter h1

theorem availablePlayers_names (roster : List Player) (unt : List String) :
    (availablePlayers roster unt).map Player.name
      = (roster.filter fun p =>
          !(["IL", "IL+"].contains (p.current_slot.getD "BN"))).map Player.name := by
  unfold availablePlayers
  rw [List.map_map]
  exact List.map_congr_left fun p _ => rfl

theorem availablePlayers_positions {roster : List Player} {unt : List String} :
    ∀ q ∈ availablePlayers roster unt, ∃ p ∈ roster, q.positions = p.positions := by
  intro q hq
  unfold availablePlayers at hq
  rcases List.mem_map.mp hq with ⟨p, hp, rfl⟩
  exact ⟨p, List.mem_of_mem_filter hp, rfl⟩

theorem swapPhase_names (roster : List Player) (unt : List String) :
    (((swapPhase roster unt).active.map Entry.name : List String) : Multiset String)
      + (((swapPhase roster unt).unassigned.map Player.name : List String) : Multiset String)
    = (((availablePlayers roster unt).map Player.name : List String) : Multiset String) := by
  unfold swapPhase
  rw [swapFold_names unt _ _ (benchWithGame_le _ unt)]
  unfold fillPhases runFill
  rw [fillFold_names, fillFold_names]
  simp

theorem swapPhase_elig (roster : List Player) (unt : List String) :
    ∀ e ∈ (swapPhase roster unt).active,
      positionsMeet e.positions (SLOT_ELIGIBILITY e.slot) = true := by
  unfold swapPhase
  refine swapFold_elig unt _ _ ?_
  unfold fillPhases runFill
  refine fillFold_elig unt _ _ _ _ (fillFold_elig unt _ _ _ _ ?_)
  intro e he
  simp at he

theorem swapPhase_bn (roster : List Player) (unt : List String)
    (h : ∀ p ∈ roster, positionsMeet p.positions (SLOT_ELIGIBILITY "BN") = true) :
    (∀ e ∈ (swapPhase roster unt).active,
      positionsMeet e.positions (SLOT_ELIGIBILITY "BN") = true)
    ∧ (∀ p ∈ (swapPhase roster unt).unassigned,
      positionsMeet p.positions (SLOT_ELIGIBILITY "BN") = true) := by
  have havail : ∀ q ∈ availablePlayers roster unt,
      positionsMeet q.positions (SLOT_ELIGIBILITY "BN") = true := by
    intro q hq
    rcases availablePlayers_positions q hq with ⟨p, hp, hpos⟩
    rw [hpos]
    exact h p hp
  have hfill : (∀ e ∈ (fillPhases roster unt).active,
      positionsMeet e.positions (SLOT_ELIGIBILITY "BN") = true)
    ∧ (∀ p ∈ (fillPhases roster unt).unassigned,
      positionsMeet p.positions (SLOT_ELIGIBILITY "BN") = true) := by
    unfold fillPhases runFill
    refine fillFold_bn unt _ _ _ _ (fillFold_bn unt _ _ _ _ ⟨?_, ?_⟩)
    · intro e he; simp at he
    · exact havail
  unfold swapPhase
  refine swapFold_bn unt _ _ ?_ hfill
  intro bp hbp
  exact hfill.2 bp (benchWithGame_subset bp hbp)

theorem buildLineup_active (roster : List Player) (unt g : List String) :
    (buildLineup roster unt g).active = (swapPhase roster unt).active := by
  simp only [buildLineup]

theorem buildLineup_bench (roster : List Player) (unt g : List String) :
    (buildLineup roster unt g).bench
      = ((sortByKey (fun p => rankSortKey p unt false)
          (swapPhase roster unt).unassigned).take BENCH_SLOTS.length).map
            (mkBenchEntry unt) := by
  simp only [buildLineup]

/-! ## Claim C1 -/

/-- C1 counterexample: eight centre-only players (N = 8 ≤ 13 = 10 + 3), yet
`build_lineup` can fill only four centre-accepting slots (stable C, flex C,
two UTIL) and the bench takes three of the remaining four, so player `Ctr8`
appears in neither output list — the claim's "none is dropped" fails. -/
theorem completeness_cex :
    (availablePlayers rosterEightCentres []).length ≤ 13
    ∧ "Ctr8" ∈ (availablePlayers rosterEightCentres []).map Player.name
    ∧ "Ctr8" ∉ ((buildLineup rosterEightCentres [] []).active.map Entry.name
        ++ (buildLineup rosterEightCentres [] []).bench.map BenchEntry.name) := by
  decide

/-- C1 amended: under distinct roster names, every name in `build_lineup`'s
active and bench outputs comes from a non-IL roster player and appears *at
most* once across the two lists (no duplication within or across); players
can however be dropped — left off both lists — when positional eligibility
leaves more than bench-capacity players unassigned, even with N ≤ 13. -/
theorem completeness_amended :
    ∀ (roster : List Player) (unt g : List String),
      ((roster.map Player.name).Nodup) →
      (((buildLineup roster unt g).active.map Entry.name
        ++ (buildLineup roster unt g).bench.map BenchEntry.name).Nodup)
      ∧ (∀ n ∈ (buildLineup roster unt g).active.map Entry.name
            ++ (buildLineup roster unt g).bench.map BenchEntry.name,
          n ∈ (availablePlayers roster unt).map Player.name) := by
  intro roster unt g hnd
  have havail : ((availablePlayers roster unt).map Player.name).Nodup := by
    rw [availablePlayers_names]
    exact hnd.sublist ((List.filter_sublist _).map Player.name)
  have hsum := swapPhase_names roster unt
  have hAU : ((swapPhase roster unt).active.map Entry.name
      ++ (swapPhase roster unt).unassigned.map Player.name).Nodup := by
    have hmul : ((((swapPhase roster unt).active.map Entry.name
        ++ (swapPhase roster unt).unassigned.map Player.name : List String)) :
          Multiset String).Nodup := by
      rw [show (((swapPhase roster unt).active.map Entry.name
          ++ (swapPhase roster unt).unassigned.map Player.name : List String) :
            Multiset String)
          = (((swapPhase roster unt).active.map Entry.name : List String) : Multiset String)
            + (((swapPhase roster unt).unassigned.map Player.name : List String) :
                Multiset String) from rfl]
      rw [hsum]
      exact Multiset.coe_nodup.mpr havail
    exact Multiset.coe_nodup.mp hmul
  rcases List.nodup_append.mp hAU with ⟨hA, hU, hdisj⟩
  have hbench_names : (buildLineup roster unt g).bench.map BenchEntry.name
      = ((sortByKey (fun p => rankSortKey p unt false)
          (swapPhase roster unt).unassigned).take BENCH_SLOTS.length).map Player.name := by
    rw [buildLineup_bench, List.map_map]
    exact List.map_congr_left fun p _ => rfl
  have hsubU : ∀ n ∈ (buildLineup roster unt g).bench.map BenchEntry.name,
      n ∈ (swapPhase roster unt).unassigned.map Player.name := by
    intro n hn
    rw [hbench_names] at hn
    rcases List.mem_map.mp hn with ⟨p, hp, rfl⟩
    have hp1 : p ∈ sortByKey (fun p => rankSortKey p unt false)
        (swapPhase roster unt).unassigned := List.take_subset _ _ hp
    exact List.mem_map_of_mem _ ((sortByKey_perm _ _).subset hp1)
  have hbenchNodup : ((buildLineup roster unt g).bench.map BenchEntry.name).Nodup := by
    rw [hbench_names]
    have hsorted : ((sortByKey (fun p => rankSortKey p unt false)
        (swapPhase roster unt).unassigned).map Player.name).Nodup :=
      ((sortByKey_perm _ _).map Player.name).nodup_iff.mpr hU
    exact hsorted.sublist ((List.take_sublist _ _).map _)
  have hactive_eq : (buildLineup roster unt g).active = (swapPhase roster unt).active :=
    buildLineup_active roster unt g
  constructor
  · rw [hactive_eq]
    refine List.nodup_append.mpr ⟨hA, hbenchNodup, ?_⟩
    intro a ha hb
    exact hdisj ha (hsubU a hb)
  · intro n hn
    have hsummem : n ∈ (swapPhase roster unt).active.map Entry.name
        ∨ n ∈ (swapPhase roster unt).unassigned.map Player.name →
        n ∈ (availablePlayers roster unt).map Player.name := by
      intro hor
      have hm : n ∈ (((swapPhase roster unt).active.map Entry.name : List String) :
          Multiset String)
          + (((swapPhase roster unt).unassigned.map Player.name : List String) :
              Multiset String) := by
        rcases hor with h | h
        · exact Multiset.mem_add.mpr (Or.inl (by simpa using h))
        · exact Multiset.mem_add.mpr (Or.inr (by simpa using h))
      rw [hsum] at hm
      simpa using hm
    rcases List.mem_append.mp hn with h | h
    · exact hsummem (Or.inl (by rw [hactive_eq] at h; exact h))
    · exact hsummem (Or.inr (hsubU n h))

/-- C1 witness: the amended claim instantiated at a one-player roster with
distinct names. -/
theorem completeness_witness :
    ((rosterOneGuard.map Player.name).Nodup)
    ∧ (((buildLineup rosterOneGuard [] []).active.map Entry.name
        ++ (buildLineup rosterOneGuard [] []).bench.map BenchEntry.name).Nodup)
    ∧ (∀ n ∈ (buildLineup rosterOneGuard [] []).active.map Entry.name
          ++ (buildLineup rosterOneGuard [] []).bench.map BenchEntry.name,
        n ∈ (availablePlayers rosterOneGuard []).map Player.name) :=
  ⟨by decide, (completeness_amended rosterOneGuard [] [] (by decide)).1,
    (completeness_amended rosterOneGuard [] [] (by decide)).2⟩

/-! ## Claim C2 -/

/-- C2 counterexample: a roster player with an empty positions list is
placed on the bench without any eligibility check, producing a (player, BN)
pair whose position set does not intersect BN's accepted list. -/
theorem eligibility_invariant_cex :
    ∃ e ∈ (buildLineup [playerNoPositions] [] []).bench,
      positionsMeet e.positions (SLOT_ELIGIBILITY e.slot) = false := by
  decide

/-- C2 amended: every (player, slot) pair of the *active* output satisfies
the eligibility intersection unconditionally; the *bench* (player, BN) pairs
satisfy it provided every roster player has at least one position among the
codes BN accepts — bench placement itself performs no eligibility check. -/
theorem eligibility_invariant_amended :
    ∀ (roster : List Player) (unt g : List String),
      (∀ e ∈ (buildLineup roster unt g).active,
        positionsMeet e.positions (SLOT_ELIGIBILITY e.slot) = true)
      ∧ ((∀ p ∈ roster, positionsMeet p.positions (SLOT_ELIGIBILITY "BN") = true) →
          ∀ e ∈ (buildLineup roster unt g).bench,
            positionsMeet e.positions (SLOT_ELIGIBILITY e.slot) = true) := by
  intro roster unt g
  constructor
  · intro e he
    rw [buildLineup_active] at he
    exact swapPhase_elig roster unt e he
  · intro h e he
    rw [buildLineup_bench] at he
    have hbn := (swapPhase_bn roster unt h).2
    rcases List.mem_map.mp he with ⟨p, hp, rfl⟩
    have hp1 : p ∈ sortByKey (fun p => rankSortKey p unt false)
        (swapPhase roster unt).unassigned := List.take_subset _ _ hp
    have hp2 : p ∈ (swapPhase roster unt).unassigned := (sortByKey_perm _ _).subset hp1
    show positionsMeet p.positions (SLOT_ELIGIBILITY "BN") = true
    exact hbn p hp2

/-- C2 witness: the amended claim instantiated at the one-player roster,
whose single player carries a standard position. -/
theorem eligibility_invariant_witness :
    (∀ e ∈ (buildLineup rosterOneGuard [] []).active,
      positionsMeet e.positions (SLOT_ELIGIBILITY e.slot) = true)
    ∧ ((∀ p ∈ rosterOneGuard, positionsMeet p.positions (SLOT_ELIGIBILITY "BN") = true)
      ∧ ∀ e ∈ (buildLineup rosterOneGuard [] []).bench,
          positionsMeet e.positions (SLOT_ELIGIBILITY e.slot) = true) :=
  ⟨(eligibility_invariant_amended rosterOneGuard [] []).1,
    by decide,
    (eligibility_invariant_amended rosterOneGuard [] []).2 (by decide)⟩

end FantasyBot
